import Mathlib

/-!
Verification of the gallery traversal and deduplication engine of the
`wix-gallery-downloader` scripts.  The definitions below are a shallow
embedding of `src/download_sardine_homepage.py` (the main variant: startup
recovery scan, session dedup ledger, duplicate-streak / disabled-arrow
termination, navigation fallback chain) together with the small fragments
of `src/download_sardine_direct.py` that decide keyboard-only navigation.
Filenames and image ids are modelled as character lists, directory contents
as lists of filenames, and the browser page as oracles feeding the loop.
-/

namespace WixGallery

/-- Character class `[a-f0-9]` used by both the id-extraction pattern
`dd09ca_([a-f0-9]+)` and the recovery-scan pattern. -/
def isHexLower (c : Char) : Bool := ('a' ≤ c && c ≤ 'f') || c.isDigit

/-- Numeric value of a decimal digit character. -/
def digitVal (c : Char) : Nat := c.toNat - 48

/-- Value of a decimal digit string, as `int(...)` computes it on the
digits captured by group 1 of the scan pattern (line 68). -/
def digitsToNat (cs : List Char) : Nat := cs.foldl (fun a c => 10 * a + digitVal c) 0

/-- Decimal digit characters of `n`, least significant first; the fuel
argument (always called with `fuel = n`) keeps the recursion structural. -/
def natCharsAux : Nat → Nat → List Char
  | 0, _ => []
  | fuel + 1, n =>
    if n = 0 then [] else Char.ofNat (48 + n % 10) :: natCharsAux fuel (n / 10)

/-- Decimal digit characters of `n`, most significant first (empty for 0;
the `%03d` padding below restores the zeros). -/
def natChars (n : Nat) : List Char := (natCharsAux n n).reverse

/-- Python `f"{n:03d}"`: the decimal digits of `n` left-padded with `'0'`
to a width of at least 3. -/
def pad3 (n : Nat) : List Char := List.replicate (3 - (natChars n).length) '0' ++ natChars n

/-- The output filename `f"sardine_{seq_number:03d}_{img_id}.{ext}"`
(line 404 of download_sardine_homepage.py, line 152 of
download_sardine_direct.py). -/
def sardineFilename (seq : Nat) (id ext : List Char) : List Char :=
  "sardine_".data ++ pad3 seq ++ '_' :: id ++ '.' :: ext

/-- Strip a literal prefix from a character list, or fail. -/
def stripLit : List Char → List Char → Option (List Char)
  | [], cs => some cs
  | _ :: _, [] => none
  | p :: ps, c :: cs => if c = p then stripLit ps cs else none

/-- The recovery-scan pattern `sardine_(\d+)_([a-f0-9]+)\.[a-z]+$` applied
with `re.match` (lines 62 and 66): group 1 converted to a number, group 2,
and the `[a-z]+` extension run the pattern validates (the scan keeps the
extension through the stored file path).  The greedy `\d+` and `[a-f0-9]+`
are maximal character runs, which coincides with the backtracking
semantics here because the literals `_` and `.` that follow them lie
outside both classes; `$` is taken as end of the filename. -/
def matchIdPattern (name : List Char) : Option (Nat × List Char × List Char) :=
  match stripLit "sardine_".data name with
  | none => none
  | some r0 =>
    match r0.takeWhile Char.isDigit, r0.dropWhile Char.isDigit with
    | [], _ => none
    | ds, '_' :: r1 =>
      match r1.takeWhile isHexLower, r1.dropWhile isHexLower with
      | [], _ => none
      | hx, '.' :: r2 =>
        match r2 with
        | [] => none
        | e :: es =>
          if (e :: es).all (fun c => 'a' ≤ c && c ≤ 'z') then
            some (digitsToNat ds, hx, e :: es)
          else none
      | _, _ => none
    | _, _ => none

/-- One step of the scan loop body (lines 65-71): the fold state is the
id-to-filename map (as a shadowing association list, latest file first)
and the running maximum sequence number. -/
def scanStep (acc : List (List Char × List Char) × Nat) (name : List Char) :
    List (List Char × List Char) × Nat :=
  match matchIdPattern name with
  | none => acc
  | some (seq, id, _) => ((id, name) :: acc.1, max acc.2 seq)

/-- `discover_existing_images` (lines 60-72): previously downloaded image
ids with their files, and the highest sequence number (0 when none).  The
glob filter `sardine_*.*` is subsumed by the pattern match, which already
requires the prefix and a dot. -/
def discover_existing_images (files : List (List Char)) :
    List (List Char × List Char) × Nat :=
  files.foldl scanStep ([], 0)

/-- The ids the startup scan found on disk. -/
def scanIds (files : List (List Char)) : List (List Char) :=
  (discover_existing_images files).1.map Prod.fst

/-- A well-formed image id as produced by `re.search(r'dd09ca_([a-f0-9]+)', ...)`
(line 374): nonempty, all characters in `[a-f0-9]`. -/
def validId (id : List Char) : Prop := id ≠ [] ∧ ∀ c ∈ id, isHexLower c = true

/-- A well-formed extension as produced by the `(jpg|jpeg|png)` group of
`get_original_image_url` (line 35): nonempty, all lowercase letters. -/
def validExt (e : List Char) : Prop := e ≠ [] ∧ ∀ c ∈ e, ('a' ≤ c && c ≤ 'z') = true

instance (id : List Char) : Decidable (validId id) := by unfold validId; infer_instance
instance (e : List Char) : Decidable (validExt e) := by unfold validExt; infer_instance

/-! ### The traversal loop of download_sardine_homepage.py -/

/-- `MAX_DUPLICATE_STREAK = 1` (line 18). -/
def MAX_DUPLICATE_STREAK : Nat := 1

/-- Status reported by `get_next_arrow_state` (line 96). -/
inductive ArrowStatus
  | enabled
  | disabled
  | missing
deriving DecidableEq, Repr

/-- The three classification outcomes of the session dedup ledger. -/
inductive Classification
  | New
  | DuplicateThisSession
  | AlreadyOnDisk
deriving DecidableEq, Repr

/-- The session bookkeeping of lines 382-404: result label, updated
`session_seen_ids`, updated `consecutive_duplicates`. -/
def classify (existing : List (List Char)) (seen : Finset (List Char)) (cd : Nat)
    (id : List Char) : Classification × Finset (List Char) × Nat :=
  if id ∈ seen then (Classification.DuplicateThisSession, seen, cd + 1)
  else ((if id ∈ existing then Classification.AlreadyOnDisk else Classification.New),
    insert id seen, 0)

/-- Observable actions of one run: completed saves, failed downloads
(`partialFile` records whether the exception hit mid-stream, after
`open(filename, 'wb')` had created the file), the focus click, the three
navigation methods of `go_to_next_image`, and warm-up key presses. -/
inductive Event
  | save (seq : Nat) (id ext : List Char)
  | fetchFail (partialFile : Bool) (seq : Nat) (id ext : List Char)
  | advFocus
  | advKey
  | advClick
  | advScript
  | warmKey
deriving DecidableEq, Repr

/-- What one iteration's locate-and-parse phase yields: an id and
extension (lines 303-379), no image at all (break, lines 356-361), or an
unparsable URL / missing id (continue, lines 370-377). -/
inductive LocateOutcome
  | found (id ext : List Char)
  | noImage
  | badUrl
deriving DecidableEq, Repr

/-- Outcome of `download_image_from_url` (lines 20-31): success, failure
before the output file was opened (connect timeout, non-2xx status), or
failure mid-stream after the file was created (read timeout or connection
drop inside `iter_content`). -/
inductive DlResult
  | ok
  | failNoFile
  | failPartial
deriving DecidableEq, Repr

/-- The page-dependent inputs of one loop iteration.  `arrow` is the
status `get_next_arrow_state` reports this step (the page is not advanced
between the duplicate-branch check at line 388 and the one inside
`go_to_next_image`, so both observe the same value); `keyOk`, `clickOk`,
`scriptOk` say whether each activation method of `go_to_next_image`
succeeds (false = it raised). -/
structure StepInput where
  loc : LocateOutcome
  arrow : ArrowStatus
  dl : DlResult
  keyOk : Bool
  clickOk : Bool
  scriptOk : Bool
deriving DecidableEq, Repr

/-- Per-run constants: the startup scan results (`existing_images` keys
and `highest_sequence`), `expected_total`, and the duplicate-streak
threshold. -/
structure Env where
  existing : List (List Char)
  highest : Nat
  total : Nat
  streak : Nat
deriving DecidableEq, Repr

/-- The mutable loop state: `downloaded`, `session_seen_ids`,
`consecutive_duplicates` (lines 279-281). -/
structure RunState where
  downloaded : Nat
  seen : Finset (List Char)
  cd : Nat
deriving DecidableEq

/-- Why the loop broke. -/
inductive StopReason
  | allSeen
  | noImage
  | arrowEnd (st : ArrowStatus)
  | dupStreak
  | navBlocked (st : ArrowStatus)
  | unreachable
deriving DecidableEq, Repr

/-- Result of one advance attempt (`go_to_next_image` as the loop sees
it). -/
inductive NavOutcome
  | advanced (ev : List Event)
  | blockedArrow (st : ArrowStatus)
  | unreachable
deriving DecidableEq, Repr

/-- `go_to_next_image` (lines 173-198) at loop granularity: not-enabled
statuses return immediately with no action dispatched; otherwise the
gallery is focused and the keyboard, click and scripted-click methods are
tried in order. -/
def go_next (arrow : ArrowStatus) (keyOk clickOk scriptOk : Bool) : NavOutcome :=
  if arrow ≠ ArrowStatus.enabled then NavOutcome.blockedArrow arrow
  else if keyOk then NavOutcome.advanced [Event.advFocus, Event.advKey]
  else if clickOk then NavOutcome.advanced [Event.advFocus, Event.advClick]
  else if scriptOk then NavOutcome.advanced [Event.advFocus, Event.advScript]
  else NavOutcome.unreachable

/-- What the body does after the classification phase. -/
inductive Phase
  | halt (r : StopReason)
  | navigate
  | skipNav
deriving DecidableEq, Repr

/-- Lines 291-416 of the loop body: the expected-total pre-check, the
locate outcome, and the duplicate / new-image classification with its
break conditions, producing the state, the download events, and whether
to halt, navigate, or skip navigation (`continue`). -/
def classifyPhase (env : Env) (s : RunState) (x : StepInput) :
    RunState × List Event × Phase :=
  if env.total ≤ s.seen.card then (s, [], Phase.halt StopReason.allSeen)
  else
    match x.loc with
    | LocateOutcome.noImage => (s, [], Phase.halt StopReason.noImage)
    | LocateOutcome.badUrl => (s, [], Phase.skipNav)
    | LocateOutcome.found id ext =>
      if id ∈ s.seen then
        let s1 : RunState := ⟨s.downloaded, s.seen, s.cd + 1⟩
        if env.total ≤ s1.seen.card then (s1, [], Phase.halt StopReason.allSeen)
        else if x.arrow ≠ ArrowStatus.enabled then
          (s1, [], Phase.halt (StopReason.arrowEnd x.arrow))
        else if env.streak ≤ s1.cd ∨ env.total ≤ s1.seen.card then
          (s1, [], Phase.halt StopReason.dupStreak)
        else (s1, [], Phase.navigate)
      else
        let base : RunState := ⟨s.downloaded, insert id s.seen, 0⟩
        let seq := env.highest + s.downloaded + 1
        let se : RunState × List Event :=
          if id ∈ env.existing then (base, [])
          else
            match x.dl with
            | DlResult.ok =>
              (⟨s.downloaded + 1, insert id s.seen, 0⟩, [Event.save seq id ext])
            | DlResult.failNoFile => (base, [Event.fetchFail false seq id ext])
            | DlResult.failPartial => (base, [Event.fetchFail true seq id ext])
        if env.total ≤ se.1.seen.card then (se.1, se.2, Phase.halt StopReason.allSeen)
        else (se.1, se.2, Phase.navigate)

/-- Result of one full loop iteration. -/
inductive IterOut
  | cont (s : RunState) (ev : List Event)
  | stop (s : RunState) (r : StopReason) (ev : List Event)
deriving DecidableEq

def IterOut.state : IterOut → RunState
  | IterOut.cont s _ => s
  | IterOut.stop s _ _ => s

def IterOut.events : IterOut → List Event
  | IterOut.cont _ ev => ev
  | IterOut.stop _ _ ev => ev

def IterOut.halted : IterOut → Bool
  | IterOut.cont _ _ => false
  | IterOut.stop _ _ _ => true

def IterOut.reason : IterOut → Option StopReason
  | IterOut.cont _ _ => none
  | IterOut.stop _ r _ => some r

/-- Lines 418-428: attempt navigation, break when it did not move. -/
def navStep (s : RunState) (x : StepInput) (ev : List Event) : IterOut :=
  match go_next x.arrow x.keyOk x.clickOk x.scriptOk with
  | NavOutcome.advanced ev2 => IterOut.cont s (ev ++ ev2)
  | NavOutcome.blockedArrow st => IterOut.stop s (StopReason.navBlocked st) ev
  | NavOutcome.unreachable => IterOut.stop s StopReason.unreachable (ev ++ [Event.advFocus])

/-- One iteration of the download loop body (lines 291-428). -/
def stepIter (env : Env) (s : RunState) (x : StepInput) : IterOut :=
  match classifyPhase env s x with
  | (s1, ev, Phase.halt r) => IterOut.stop s1 r ev
  | (s1, ev, Phase.skipNav) => IterOut.cont s1 ev
  | (s1, ev, Phase.navigate) => navStep s1 x ev

/-- Accumulated outcome of a run's loop. -/
structure RunResult where
  state : RunState
  events : List Event
  stopped : Option StopReason
  steps : Nat
deriving DecidableEq

/-- The `for i in range(50)` loop (line 291), driven by per-iteration
inputs; `fuel` is the remaining iteration budget. -/
def runLoop (env : Env) (inp : Nat → StepInput) : Nat → Nat → RunState → RunResult
  | _, 0, s => ⟨s, [], none, 0⟩
  | i, fuel + 1, s =>
    match stepIter env s (inp i) with
    | IterOut.stop s1 r ev => ⟨s1, ev, some r, 1⟩
    | IterOut.cont s1 ev =>
      let rest := runLoop env inp (i + 1) fuel s1
      ⟨rest.state, ev ++ rest.events, rest.stopped, rest.steps + 1⟩

/-- Initial loop state (lines 279-281). -/
def initState : RunState := ⟨0, ∅, 0⟩

/-- The loop phase of `main` (lines 279-428): three warm-up ArrowRight
presses (lines 283-288), then up to 50 iterations from fresh counters. -/
def mainRun (env : Env) (inp : Nat → StepInput) : RunResult :=
  let r := runLoop env inp 0 50 initState
  ⟨r.state, Event.warmKey :: Event.warmKey :: Event.warmKey :: r.events, r.stopped, r.steps⟩

/-! ### Whole invocations against a directory, and repeated runs -/

/-- The on-disk effect of an event: a completed save writes the target
file; a mid-stream failure leaves a partial file under the same name
(`download_image_from_url` opens the file before streaming and does not
delete it on error). -/
def eventFile : Event → Option (List Char)
  | Event.save seq id ext => some (sardineFilename seq id ext)
  | Event.fetchFail true seq id ext => some (sardineFilename seq id ext)
  | _ => none

/-- Inputs of one whole invocation: the per-iteration page inputs and the
`expected_total` this run derives from the page metadata (line 273). -/
structure RunSpec where
  inp : Nat → StepInput
  total : Nat

/-- One full invocation of the script against directory contents `disk`:
startup scan, loop, and resulting directory contents. -/
def runOnce (disk : List (List Char)) (rs : RunSpec) : List (List Char) × RunResult :=
  let scanned := discover_existing_images disk
  let env : Env := ⟨scanned.1.map Prod.fst, scanned.2, rs.total, MAX_DUPLICATE_STREAK⟩
  let r := mainRun env rs.inp
  (disk ++ r.events.filterMap eventFile, r)

/-- Repeated invocations against the same output directory; returns the
final directory contents and each run's event trace in order. -/
def multiRun (disk : List (List Char)) : List RunSpec → List (List Char) × List (List Event)
  | [] => (disk, [])
  | rs :: rest =>
    let first := runOnce disk rs
    let later := multiRun first.1 rest
    (later.1, first.2.events :: later.2)

/-! ### Page-position-indexed run (for the warm-up claim) -/

/-- Page inputs indexed by time: `disp t` is what the locate phase yields
when `t` advance key/click signals have been dispatched since the gallery
opened; the other oracles are indexed by iteration. -/
structure PageInputs where
  disp : Nat → LocateOutcome
  arrow : Nat → ArrowStatus
  dl : Nat → DlResult
  keyOk : Nat → Bool
  clickOk : Nat → Bool
  scriptOk : Nat → Bool

/-- Count of gallery-advancing dispatches in an event list. -/
def advCount (ev : List Event) : Nat :=
  ev.countP fun e => e = Event.advKey || e = Event.advClick || e = Event.advScript

/-- The loop driven by the time-indexed page: `t` is the number of advance
signals dispatched so far (3 after warm-up). -/
def runPage (env : Env) (pi : PageInputs) : Nat → Nat → Nat → RunState → RunResult
  | _, _, 0, s => ⟨s, [], none, 0⟩
  | i, t, fuel + 1, s =>
    match stepIter env s
        ⟨pi.disp t, pi.arrow i, pi.dl i, pi.keyOk i, pi.clickOk i, pi.scriptOk i⟩ with
    | IterOut.stop s1 r ev => ⟨s1, ev, some r, 1⟩
    | IterOut.cont s1 ev =>
      let rest := runPage env pi (i + 1) (t + advCount ev) fuel s1
      ⟨rest.state, ev ++ rest.events, rest.stopped, rest.steps + 1⟩

/-- `main` with the page model: the three warm-up presses advance the
gallery to position 3 before the first locate. -/
def mainPage (env : Env) (pi : PageInputs) : RunResult :=
  let r := runPage env pi 0 3 50 initState
  ⟨r.state, Event.warmKey :: Event.warmKey :: Event.warmKey :: r.events, r.stopped, r.steps⟩

/-! ### Event classifications -/

/-- Does this event record a call of `download_image_from_url` for `id`
(successful or failed)? -/
def isFetchOf (id : List Char) : Event → Bool
  | Event.save _ i _ => i = id
  | Event.fetchFail _ _ i _ => i = id
  | _ => false

/-- Does this event record a completed save of `id`? -/
def isSaveOf (id : List Char) : Event → Bool
  | Event.save _ i _ => i = id
  | _ => false

/-- Is this event an advance action (focus click, key signal, click,
scripted click)? -/
def isAdvanceEv : Event → Bool
  | Event.advFocus => true
  | Event.advKey => true
  | Event.advClick => true
  | Event.advScript => true
  | _ => false

/-- The sequence numbers of the completed saves, in order. -/
def saveSeqs (ev : List Event) : List Nat :=
  ev.filterMap fun e =>
    match e with
    | Event.save q _ _ => some q
    | _ => none

/-- A step input is well-formed when its found ids and extensions have the
shapes the extraction regexes `dd09ca_([a-f0-9]+)` and `(jpg|jpeg|png)`
guarantee. -/
def WFInput (x : StepInput) : Prop :=
  ∀ id ext, x.loc = LocateOutcome.found id ext → validId id ∧ validExt ext

/-- All iterations of a run spec are well-formed. -/
def WFSpec (rs : RunSpec) : Prop := ∀ i, WFInput (rs.inp i)

/-! ### Derived run-level definitions -/

/-- The environment a run constructs from the directory it scans. -/
def envOf (disk : List (List Char)) (total : Nat) : Env :=
  ⟨scanIds disk, (discover_existing_images disk).2, total, MAX_DUPLICATE_STREAK⟩

/-- All events of a sequence of runs, in order. -/
def allEvents : List (List Event) → List Event
  | [] => []
  | ev :: rest => ev ++ allEvents rest

/-! ### The next-arrow control (get_next_arrow_state / go_to_next_image) -/

/-- Observations of one arrow-selector candidate.  Exceptions are
represented by the defaults the source's except-branches install: a
throwing `query_selector` is a missing candidate (`none` in the selector
list, lines 105-108); throwing `bounding_box`/`is_visible` reads give
`box = none` and `visible = false` (lines 113-118); a throwing style
evaluation gives `evalHidden = evalDisabled = false` (lines 137-138); a
missing inner button or a throwing inner evaluation gives `inner = none`
(lines 143-164). -/
structure ArrowProbe where
  box : Option (Int × Int)
  visible : Bool
  evalHidden : Bool
  evalDisabled : Bool
  inner : Option (Bool × Bool)
deriving DecidableEq, Repr

/-- The box/visibility filter of line 120. -/
def probeGeomOk (p : ArrowProbe) : Bool :=
  (match p.box with
   | some (w, h) => decide (0 < w) && decide (0 < h)
   | none => false) && p.visible

/-- The inner-button hidden check of lines 161-162. -/
def probeInnerHidden (p : ArrowProbe) : Bool :=
  match p.inner with
  | some (ih, _) => ih
  | none => false

/-- The disabled decision of line 166. -/
def probeDisabled (p : ArrowProbe) : Bool :=
  p.evalDisabled ||
    (match p.inner with
     | some (_, idis) => idis
     | none => false)

/-- `get_next_arrow_state` (lines 95-171): the first selector whose probe
is found and survives the geometry, hidden, and inner-hidden filters
decides the status; when none does, the state is missing. -/
def get_next_arrow_state : List (Option ArrowProbe) → ArrowStatus × Option ArrowProbe
  | [] => (ArrowStatus.missing, none)
  | none :: rest => get_next_arrow_state rest
  | some p :: rest =>
    if probeGeomOk p && !p.evalHidden && !probeInnerHidden p then
      (if probeDisabled p then ArrowStatus.disabled else ArrowStatus.enabled, some p)
    else get_next_arrow_state rest

/-- How one advance attempt reported its method or failure. -/
inductive NavTag
  | keyboard
  | button
  | script
  | blockedBy (st : ArrowStatus)
  | unreachable
deriving DecidableEq, Repr

/-- `go_to_next_image` (lines 173-198) at element level: a not-enabled (or
absent) arrow returns immediately with no action; otherwise the gallery is
focused and the keyboard press, the direct click and the scripted click
are attempted in order (`keyOk`/`clickOk`/`scriptOk` false = that method
raised). -/
def go_to_next_image (probes : List (Option ArrowProbe)) (keyOk clickOk scriptOk : Bool) :
    Bool × NavTag × List Event :=
  let st := get_next_arrow_state probes
  if st.1 ≠ ArrowStatus.enabled ∨ st.2 = none then (false, NavTag.blockedBy st.1, [])
  else if keyOk then (true, NavTag.keyboard, [Event.advFocus, Event.advKey])
  else if clickOk then (true, NavTag.button, [Event.advFocus, Event.advClick])
  else if scriptOk then (true, NavTag.script, [Event.advFocus, Event.advScript])
  else (false, NavTag.unreachable, [Event.advFocus])

/-- Line 94 of download_sardine_direct.py: that variant chooses keyboard
navigation once at startup, exactly when no selector produced any arrow
elements. -/
def use_keyboard (arrows : List ArrowProbe) : Bool := arrows.length == 0

/-- Lines 165-201 of download_sardine_direct.py: one navigation step of
the direct variant; keyboard mode presses ArrowRight unconditionally,
button mode script-clicks the chosen arrow and falls back to the keyboard
when the click raises or the arrows disappeared. -/
def direct_navigate (useKb : Bool) (arrows : List ArrowProbe) (jsClickOk : Bool) :
    List Event :=
  if useKb then [Event.advKey]
  else
    match arrows with
    | [] => [Event.advKey]
    | _ :: _ => if jsClickOk then [Event.advScript] else [Event.advKey]

/-! ### The active-image locator (find_active_image and main's fallbacks) -/

/-- One `img` element as the first strategy reads it: `visRead = none`
models a throwing `is_visible` (the except skips the element);
`srcRead = none` a throwing attribute read; `some none` a falsy address
(both `src` and `data-src` absent or empty). -/
structure ImgElem where
  visRead : Option Bool
  srcRead : Option (Option (List Char))
deriving DecidableEq, Repr

/-- The inner loop of `find_active_image` (lines 212-219): a visible
element with a retrievable address is returned; exceptions and falsy
addresses leave the loop scanning. -/
def find_img_in : List ImgElem → Option (ImgElem × List Char)
  | [] => none
  | e :: es =>
    match e.visRead with
    | none => find_img_in es
    | some false => find_img_in es
    | some true =>
      match e.srcRead with
      | none => find_img_in es
      | some none => find_img_in es
      | some (some s) => some (e, s)

/-- `find_active_image` (lines 200-221): the selector lists are tried in
order, first hit wins. -/
def find_active_image : List (List ImgElem) → Option (ImgElem × List Char)
  | [] => none
  | elems :: rest =>
    match find_img_in elems with
    | some r => some r
    | none => find_active_image rest

/-- An element as the centering / largest-fallback scans read it: `box`
is `(x, width)` in logical pixels; a throwing read inside the scan's try
is `visRead = none` or `box = none`; `srcRead` is the element's separate
src-attribute read, `some none` standing for a falsy (absent or empty)
address. -/
structure CandElem where
  visRead : Option Bool
  box : Option (Rat × Rat)
  srcRead : Option (Option (List Char))
deriving DecidableEq, Repr

/-- The centering scan of lines 315-331: among visible elements wider than
500, keep the one whose horizontal center is nearest the 1920-viewport
center (strictly closer wins, so the first minimum is kept); the state is
(best, minDistance), `none` standing for `float('inf')`. -/
def centeredScan : List CandElem → Option CandElem × Option Rat →
    Option CandElem × Option Rat
  | [], st => st
  | e :: es, (best, md) =>
    match e.visRead, e.box with
    | some true, some (x, w) =>
      if 500 < w then
        let dist := |x + w / 2 - 960|
        match md with
        | none => centeredScan es (some e, some dist)
        | some m =>
          if dist < m then centeredScan es (some e, some dist)
          else centeredScan es (best, md)
      else centeredScan es (best, md)
    | _, _ => centeredScan es (best, md)

/-- The largest-visible scan of lines 339-354, state
(max_width, current_img, img_src).  The source assigns `max_width` and
`current_img` before reading `src`, so a throwing read (`srcRead = none`)
keeps the element with the previous iteration's `img_src`. -/
def largestScan : List CandElem → Rat × Option CandElem × Option (List Char) →
    Rat × Option CandElem × Option (List Char)
  | [], st => st
  | e :: es, (mw, cur, src) =>
    match e.visRead, e.box with
    | some true, some (_, w) =>
      if mw < w ∧ 500 < w then
        match e.srcRead with
        | none => largestScan es (w, some e, src)
        | some s => largestScan es (w, some e, s)
      else largestScan es (mw, cur, src)
    | _, _ => largestScan es (mw, cur, src)

/-- How the locate phase of an iteration ends. -/
inductive LocCascade
  | proceed (src : List Char)
  | stopLoop
  | fatal
deriving DecidableEq, Repr

/-- The locate phase of the loop body (lines 303-361): strategy 1
(`find_active_image`), then the centering scan — whose chosen candidate's
src is read at line 335, outside any try, so a `None` there leaves
`img_src = None` and hits the break at line 356 while a throw escapes to
the outer handler and aborts the run — then the largest-visible scan,
then the line-356 break check. -/
def locate_current (s1 : List (List ImgElem)) (s2 s3 : List CandElem) : LocCascade :=
  match find_active_image s1 with
  | some (_, src) => LocCascade.proceed src
  | none =>
    match (centeredScan s2 (none, none)).1 with
    | some best =>
      match best.srcRead with
      | none => LocCascade.fatal
      | some none => LocCascade.stopLoop
      | some (some s) => LocCascade.proceed s
    | none =>
      match largestScan s3 (0, none, none) with
      | (_, some _, some s) => LocCascade.proceed s
      | (_, some _, none) => LocCascade.stopLoop
      | (_, none, _) => LocCascade.stopLoop

/-! ### Concrete scenarios (failing inputs and witnesses) -/

/-- A concrete image id. -/
def c8Id : List Char := ['a', 'b', '1', '2']

/-- Run 1 of the failed-download scenario: the first iteration locates
`c8Id` but the download dies mid-stream (partial file written); the next
iteration finds no image. -/
def c8Run1 : RunSpec :=
  ⟨fun i =>
    if i = 0 then
      ⟨LocateOutcome.found c8Id ['j', 'p', 'g'], ArrowStatus.enabled,
        DlResult.failPartial, true, true, true⟩
    else ⟨LocateOutcome.noImage, ArrowStatus.enabled, DlResult.ok, true, true, true⟩,
   50⟩

/-- Same as `c8Run1` but the download fails before the file is created
(HTTP error status or connect timeout). -/
def c8Run1b : RunSpec :=
  ⟨fun i =>
    if i = 0 then
      ⟨LocateOutcome.found c8Id ['j', 'p', 'g'], ArrowStatus.enabled,
        DlResult.failNoFile, true, true, true⟩
    else ⟨LocateOutcome.noImage, ArrowStatus.enabled, DlResult.ok, true, true, true⟩,
   50⟩

/-- A later run that keeps locating `c8Id`, with downloads working. -/
def c8Run2 : RunSpec :=
  ⟨fun _ => ⟨LocateOutcome.found c8Id ['j', 'p', 'g'], ArrowStatus.enabled,
    DlResult.ok, true, true, true⟩, 50⟩

/-- Witness step input: every iteration locates id `['a']`. -/
def wStep : StepInput :=
  ⟨LocateOutcome.found ['a'] ['j', 'p', 'g'], ArrowStatus.enabled, DlResult.ok,
    true, true, true⟩

/-- Witness run spec built from `wStep`. -/
def wSpec : RunSpec := ⟨fun _ => wStep, 1⟩

/-- Witness page: the id `['a']` is displayed only during warm-up. -/
def wPage : PageInputs :=
  ⟨fun t => if t < 3 then LocateOutcome.found ['a'] ['j', 'p', 'g']
    else LocateOutcome.noImage,
   fun _ => ArrowStatus.enabled, fun _ => DlResult.ok,
   fun _ => true, fun _ => true, fun _ => true⟩

/-! ### Round-trip facts about the filename convention -/

lemma stripLit_append (p r : List Char) : stripLit p (p ++ r) = some r := by
  induction p with
  | nil => rfl
  | cons c cs ih => simp [stripLit, ih]

lemma takeWhile_all_append (p : Char → Bool) (A : List Char) (b : Char) (B : List Char)
    (hA : ∀ c ∈ A, p c = true) (hb : p b = false) :
    (A ++ b :: B).takeWhile p = A := by
  induction A with
  | nil => simp [List.takeWhile_cons, hb]
  | cons c cs ih =>
    have hc : p c = true := hA c (by simp)
    simp only [List.cons_append, List.takeWhile_cons, hc, if_true]
    rw [ih (fun c hc => hA c (by simp [hc]))]

lemma dropWhile_all_append (p : Char → Bool) (A : List Char) (b : Char) (B : List Char)
    (hA : ∀ c ∈ A, p c = true) (hb : p b = false) :
    (A ++ b :: B).dropWhile p = b :: B := by
  induction A with
  | nil => simp [List.dropWhile_cons, hb]
  | cons c cs ih =>
    have hc : p c = true := hA c (by simp)
    simp only [List.cons_append, List.dropWhile_cons, hc, if_true]
    exact ih (fun c hc => hA c (by simp [hc]))

lemma digitVal_ofNat (d : Nat) (hd : d < 10) : digitVal (Char.ofNat (48 + d)) = d := by
  interval_cases d <;> decide

lemma isDigit_ofNat (d : Nat) (hd : d < 10) : (Char.ofNat (48 + d)).isDigit = true := by
  interval_cases d <;> decide

lemma foldl_digits_eq (ds : List Nat) (hds : ∀ d ∈ ds, d < 10) (a : Nat) :
    List.foldl (fun acc c => 10 * acc + digitVal c) a
      ((ds.map (fun d => Char.ofNat (48 + d))).reverse)
      = a * 10 ^ ds.length + Nat.ofDigits 10 ds := by
  induction ds generalizing a with
  | nil => simp [Nat.ofDigits_nil]
  | cons d rest ih =>
    have hd : d < 10 := hds d (by simp)
    have hrest : ∀ x ∈ rest, x < 10 := fun x hx => hds x (by simp [hx])
    simp only [List.map_cons, List.reverse_cons, List.foldl_append, List.foldl_cons,
      List.foldl_nil, ih hrest a, digitVal_ofNat d hd, Nat.ofDigits_cons, List.length_cons]
    ring

lemma natCharsAux_eq : ∀ fuel n, n ≤ fuel →
    natCharsAux fuel n = (Nat.digits 10 n).map (fun d => Char.ofNat (48 + d)) := by
  intro fuel
  induction fuel with
  | zero =>
    intro n hn
    interval_cases n
    simp [natCharsAux]
  | succ fuel ih =>
    intro n hn
    by_cases h0 : n = 0
    · subst h0; simp [natCharsAux]
    · have hdiv : n / 10 < n := Nat.div_lt_self (Nat.pos_of_ne_zero h0) (by norm_num)
      rw [natCharsAux]
      simp only [h0, if_false]
      rw [Nat.digits_def' (by norm_num : (1 : Nat) < 10) (Nat.pos_of_ne_zero h0)]
      simp only [List.map_cons]
      congr 1
      exact ih (n / 10) (by omega)

lemma natChars_eq (n : Nat) :
    natChars n = ((Nat.digits 10 n).map (fun d => Char.ofNat (48 + d))).reverse := by
  rw [natChars, natCharsAux_eq n n (le_refl n)]

lemma digitsToNat_natChars (n : Nat) : digitsToNat (natChars n) = n := by
  have h := foldl_digits_eq (Nat.digits 10 n)
    (fun d hd => Nat.digits_lt_base (by norm_num) hd) 0
  simpa [digitsToNat, natChars_eq, Nat.ofDigits_digits] using h

lemma digitsToNat_pad3 (n : Nat) : digitsToNat (pad3 n) = n := by
  have hzero : ∀ k, List.foldl (fun a c => 10 * a + digitVal c) 0 (List.replicate k '0') = 0 := by
    intro k; induction k with
    | zero => rfl
    | succ k ih => simpa [List.replicate_succ, digitVal] using ih
  calc digitsToNat (pad3 n)
      = List.foldl (fun a c => 10 * a + digitVal c)
          (List.foldl (fun a c => 10 * a + digitVal c) 0
            (List.replicate (3 - (natChars n).length) '0')) (natChars n) := by
        simp [digitsToNat, pad3, List.foldl_append]
    _ = digitsToNat (natChars n) := by rw [hzero]; rfl
    _ = n := digitsToNat_natChars n

lemma pad3_all_digits (n : Nat) : ∀ c ∈ pad3 n, c.isDigit = true := by
  intro c hc
  rcases List.mem_append.mp hc with h | h
  · have : c = '0' := List.eq_of_mem_replicate h
    subst this; decide
  · rw [natChars_eq] at h
    rcases List.mem_map.mp (List.mem_reverse.mp h) with ⟨d, hd, rfl⟩
    exact isDigit_ofNat d (Nat.digits_lt_base (by norm_num) hd)

lemma pad3_ne_nil (n : Nat) : pad3 n ≠ [] := by
  cases h : natChars n with
  | nil => simp [pad3, h, List.replicate]
  | cons c cs => simp [pad3, h]

lemma hexLower_isDigit (c : Char) (h : c.isDigit = true) : isHexLower c = true := by
  simp [isHexLower, h]

/-- Core round-trip fact: the scan pattern parses a constructed filename
back to the original triple. -/
lemma matchIdPattern_sardineFilename (seq : Nat) (id ext : List Char)
    (hid : validId id) (hext : validExt ext) :
    matchIdPattern (sardineFilename seq id ext) = some (seq, id, ext) := by
  obtain ⟨pc, pcs, hps⟩ : ∃ pc pcs, pad3 seq = pc :: pcs := by
    cases h : pad3 seq with
    | nil => exact absurd h (pad3_ne_nil seq)
    | cons a b => exact ⟨a, b, rfl⟩
  obtain ⟨ic, ics, hic⟩ : ∃ ic ics, id = ic :: ics := by
    cases h : id with
    | nil => exact absurd h hid.1
    | cons a b => exact ⟨a, b, rfl⟩
  obtain ⟨ec, ecs, hec⟩ : ∃ ec ecs, ext = ec :: ecs := by
    cases h : ext with
    | nil => exact absurd h hext.1
    | cons a b => exact ⟨a, b, rfl⟩
  have hstrip : stripLit "sardine_".data (sardineFilename seq id ext)
      = some (pad3 seq ++ '_' :: (id ++ '.' :: ext)) := by
    have := stripLit_append "sardine_".data (pad3 seq ++ '_' :: (id ++ '.' :: ext))
    simpa [sardineFilename] using this
  have hdig : ∀ c ∈ pad3 seq, Char.isDigit c = true := pad3_all_digits seq
  have hu : Char.isDigit '_' = false := by decide
  have htake : (pad3 seq ++ '_' :: (id ++ '.' :: ext)).takeWhile Char.isDigit = pad3 seq :=
    takeWhile_all_append _ _ _ _ hdig hu
  have hdrop : (pad3 seq ++ '_' :: (id ++ '.' :: ext)).dropWhile Char.isDigit
      = '_' :: (id ++ '.' :: ext) :=
    dropWhile_all_append _ _ _ _ hdig hu
  have hhex : ∀ c ∈ id, isHexLower c = true := hid.2
  have hdot : isHexLower '.' = false := by decide
  have htake2 : (id ++ '.' :: ext).takeWhile isHexLower = id :=
    takeWhile_all_append _ _ _ _ hhex hdot
  have hdrop2 : (id ++ '.' :: ext).dropWhile isHexLower = '.' :: ext :=
    dropWhile_all_append _ _ _ _ hhex hdot
  have hextall : ext.all (fun c => 'a' ≤ c && c ≤ 'z') = true :=
    List.all_eq_true.mpr hext.2
  have hdtn : digitsToNat (pc :: pcs) = seq := by rw [← hps]; exact digitsToNat_pad3 seq
  unfold matchIdPattern
  rw [hstrip]
  simp only [htake, hdrop]
  rw [hps]
  simp only [htake2, hdrop2]
  rw [hic, hec]
  simp only [List.all_cons, List.all_eq_true]
  rw [if_pos]
  · rw [hdtn, ← hic, ← hec]
  · have h1 := hext.2 ec (by rw [hec]; exact List.mem_cons_self ec ecs)
    have h2 : (ecs.all fun c => 'a' ≤ c && c ≤ 'z') = true :=
      List.all_eq_true.mpr fun c hc =>
        hext.2 c (by rw [hec]; exact List.mem_cons_of_mem ec hc)
    rw [h1, h2]
    decide

/-! ### Facts about single loop iterations -/

lemma saveSeqs_append (a b : List Event) :
    saveSeqs (a ++ b) = saveSeqs a ++ saveSeqs b := by
  simp [saveSeqs, List.filterMap_append]

lemma isFetchOf_of_adv (id : List Char) (e : Event) (h : isAdvanceEv e = true) :
    isFetchOf id e = false := by
  cases e <;> simp_all [isAdvanceEv, isFetchOf]

lemma saveSeqs_of_adv (ev : List Event) (h : ∀ e ∈ ev, isAdvanceEv e = true) :
    saveSeqs ev = [] := by
  induction ev with
  | nil => rfl
  | cons e es ih =>
    have he := h e (by simp)
    have hes := ih fun e' he' => h e' (by simp [he'])
    cases e <;> simp_all [saveSeqs, isAdvanceEv]

lemma countP_fetch_of_adv (id : List Char) (ev : List Event)
    (h : ∀ e ∈ ev, isAdvanceEv e = true) : ev.countP (isFetchOf id) = 0 := by
  refine List.countP_eq_zero.mpr fun e he => ?_
  simp [isFetchOf_of_adv id e (h e he)]

lemma go_next_advanced (a : ArrowStatus) (k c sc : Bool) (ev2 : List Event)
    (h : go_next a k c sc = NavOutcome.advanced ev2) :
    ∀ e ∈ ev2, isAdvanceEv e = true := by
  unfold go_next at h
  split_ifs at h <;> cases h <;> decide

lemma navStep_decomp (s : RunState) (x : StepInput) (ev : List Event) :
    (navStep s x ev).state = s ∧
    ∃ ev2, (navStep s x ev).events = ev ++ ev2 ∧ ∀ e ∈ ev2, isAdvanceEv e = true := by
  unfold navStep
  cases hgo : go_next x.arrow x.keyOk x.clickOk x.scriptOk with
  | advanced ev2 =>
    exact ⟨rfl, ev2, rfl, go_next_advanced _ _ _ _ _ hgo⟩
  | blockedArrow st =>
    exact ⟨rfl, [], by simp [IterOut.events], by simp⟩
  | unreachable =>
    exact ⟨rfl, [Event.advFocus], rfl, by simp [isAdvanceEv]⟩

/-- Shape of the classification phase: either the session bookkeeping is
untouched and no download happens, or a fresh id was inserted and the
download branch ran (skipped, saved, or failed). -/
lemma classifyPhase_shape (env : Env) (s : RunState) (x : StepInput) :
    ((classifyPhase env s x).1.seen = s.seen ∧
     (classifyPhase env s x).1.downloaded = s.downloaded ∧
     (classifyPhase env s x).2.1 = [])
    ∨ (∃ id ext, x.loc = LocateOutcome.found id ext ∧ id ∉ s.seen ∧
        (classifyPhase env s x).1.seen = insert id s.seen ∧
        ((id ∈ env.existing ∧ (classifyPhase env s x).1.downloaded = s.downloaded ∧
            (classifyPhase env s x).2.1 = [])
         ∨ (id ∉ env.existing ∧
              (classifyPhase env s x).1.downloaded = s.downloaded + 1 ∧
              (classifyPhase env s x).2.1
                = [Event.save (env.highest + s.downloaded + 1) id ext])
         ∨ (id ∉ env.existing ∧
              (classifyPhase env s x).1.downloaded = s.downloaded ∧
              ∃ b, (classifyPhase env s x).2.1
                = [Event.fetchFail b (env.highest + s.downloaded + 1) id ext]))) := by
  unfold classifyPhase
  split
  · exact Or.inl ⟨rfl, rfl, rfl⟩
  · split
    · exact Or.inl ⟨rfl, rfl, rfl⟩
    · exact Or.inl ⟨rfl, rfl, rfl⟩
    · rename_i id ext hloc
      by_cases hseen : id ∈ s.seen
      · simp only [hseen, if_true]
        split_ifs <;> exact Or.inl ⟨rfl, rfl, rfl⟩
      · simp only [hseen, if_false]
        by_cases hex : id ∈ env.existing
        · simp only [hex, if_true]
          split_ifs <;> exact Or.inr ⟨id, ext, hloc, hseen, rfl, Or.inl ⟨hex, rfl, rfl⟩⟩
        · simp only [hex, if_false]
          cases hdl : x.dl <;> simp only
          · split_ifs <;>
              exact Or.inr ⟨id, ext, hloc, hseen, rfl, Or.inr (Or.inl ⟨hex, rfl, rfl⟩)⟩
          · split_ifs <;>
              exact Or.inr ⟨id, ext, hloc, hseen, rfl,
                Or.inr (Or.inr ⟨hex, rfl, false, rfl⟩)⟩
          · split_ifs <;>
              exact Or.inr ⟨id, ext, hloc, hseen, rfl,
                Or.inr (Or.inr ⟨hex, rfl, true, rfl⟩)⟩

/-- An iteration is the classification phase followed by zero or more
advance actions, with the classification's state. -/
lemma stepIter_decomp (env : Env) (s : RunState) (x : StepInput) :
    (stepIter env s x).state = (classifyPhase env s x).1 ∧
    ∃ ev2, (stepIter env s x).events = (classifyPhase env s x).2.1 ++ ev2 ∧
      ∀ e ∈ ev2, isAdvanceEv e = true := by
  unfold stepIter
  rcases hc : classifyPhase env s x with ⟨s1, ev, ph⟩
  cases ph with
  | halt r => exact ⟨rfl, [], by simp [IterOut.events, IterOut.state], by simp⟩
  | skipNav => exact ⟨rfl, [], by simp [IterOut.events, IterOut.state], by simp⟩
  | navigate =>
    obtain ⟨h1, ev2, h2, h3⟩ := navStep_decomp s1 x ev
    exact ⟨h1, ev2, h2, h3⟩

lemma stepIter_seen_mono (env : Env) (s : RunState) (x : StepInput) :
    s.seen ⊆ (stepIter env s x).state.seen := by
  obtain ⟨hst, -⟩ := stepIter_decomp env s x
  rw [hst]
  rcases classifyPhase_shape env s x with ⟨h, -, -⟩ | ⟨id, ext, -, -, h, -⟩
  · rw [h]
  · rw [h]; exact Finset.subset_insert id s.seen

lemma stepIter_downloaded_mono (env : Env) (s : RunState) (x : StepInput) :
    s.downloaded ≤ (stepIter env s x).state.downloaded := by
  obtain ⟨hst, -⟩ := stepIter_decomp env s x
  rw [hst]
  rcases classifyPhase_shape env s x with ⟨-, h, -⟩ | ⟨id, ext, -, -, -, h⟩
  · omega
  · rcases h with ⟨-, h, -⟩ | ⟨-, h, -⟩ | ⟨-, h, -⟩ <;> omega

lemma stepIter_saveSeqs (env : Env) (s : RunState) (x : StepInput) :
    saveSeqs (stepIter env s x).events
      = List.range' (env.highest + s.downloaded + 1)
          ((stepIter env s x).state.downloaded - s.downloaded) := by
  obtain ⟨hst, ev2, hev, hadv⟩ := stepIter_decomp env s x
  rw [hst, hev, saveSeqs_append, saveSeqs_of_adv ev2 hadv, List.append_nil]
  rcases classifyPhase_shape env s x with ⟨-, hd, he⟩ | ⟨id, ext, -, -, -, h⟩
  · rw [hd, he]; simp [saveSeqs]
  · rcases h with ⟨-, hd, he⟩ | ⟨-, hd, he⟩ | ⟨-, hd, b, he⟩ <;> rw [hd, he] <;>
      simp [saveSeqs]

lemma stepIter_fetch_count (env : Env) (s : RunState) (x : StepInput) (id : List Char) :
    ((stepIter env s x).events.countP (isFetchOf id) ≤ 1)
    ∧ (id ∈ s.seen → (stepIter env s x).events.countP (isFetchOf id) = 0)
    ∧ (1 ≤ (stepIter env s x).events.countP (isFetchOf id) →
        id ∉ env.existing ∧ id ∉ s.seen ∧ id ∈ (stepIter env s x).state.seen) := by
  obtain ⟨hst, ev2, hev, hadv⟩ := stepIter_decomp env s x
  rw [hst, hev, List.countP_append, countP_fetch_of_adv id ev2 hadv, Nat.add_zero]
  rcases classifyPhase_shape env s x with ⟨hsn, -, he⟩ | ⟨id0, ext, -, hid0, hsn, h⟩
  · rw [he]; simp
  · rcases h with ⟨hex, -, he⟩ | ⟨hex, -, he⟩ | ⟨hex, -, b, he⟩
    · rw [he]; simp
    · rw [he, hsn]
      by_cases heq : id0 = id
      · subst heq
        simp [List.countP_cons, isFetchOf, hid0, hex]
      · simp [List.countP_cons, isFetchOf, heq]
    · rw [he, hsn]
      by_cases heq : id0 = id
      · subst heq
        simp [List.countP_cons, isFetchOf, hid0, hex]
      · simp [List.countP_cons, isFetchOf, heq]

lemma stepIter_wf_events (env : Env) (s : RunState) (x : StepInput) (hwf : WFInput x) :
    ∀ q idv extv, ((Event.save q idv extv) ∈ (stepIter env s x).events ∨
        ∃ b, (Event.fetchFail b q idv extv) ∈ (stepIter env s x).events) →
      validId idv ∧ validExt extv := by
  obtain ⟨-, ev2, hev, hadv⟩ := stepIter_decomp env s x
  rw [hev]
  intro q idv extv hmem
  have hnotadv : ∀ b, (Event.save q idv extv ∈ ev2 → False) ∧
      (Event.fetchFail b q idv extv ∈ ev2 → False) := by
    intro b
    constructor <;> intro hm <;> have := hadv _ hm <;> simp [isAdvanceEv] at this
  rcases classifyPhase_shape env s x with ⟨-, -, he⟩ | ⟨id0, ext0, hloc, -, -, h⟩
  · rw [he] at hmem
    rcases hmem with hm | ⟨b, hm⟩
    · simp at hm; exact absurd hm ((hnotadv true).1)
    · simp at hm; exact absurd hm ((hnotadv b).2)
  · have hval := hwf id0 ext0 hloc
    rcases h with ⟨-, -, he⟩ | ⟨-, -, he⟩ | ⟨-, -, b0, he⟩ <;> rw [he] at hmem
    · rcases hmem with hm | ⟨b, hm⟩
      · simp at hm; exact absurd hm ((hnotadv true).1)
      · simp at hm; exact absurd hm ((hnotadv b).2)
    · rcases hmem with hm | ⟨b, hm⟩
      · rcases List.mem_cons.mp hm with hm | hm
        · obtain ⟨-, h2, h3⟩ := Event.save.inj hm.symm
          rw [h2, h3] at hval; exact hval
        · exact absurd hm ((hnotadv true).1)
      · rcases List.mem_cons.mp hm with hm | hm
        · cases hm
        · exact absurd hm ((hnotadv b).2)
    · rcases hmem with hm | ⟨b, hm⟩
      · rcases List.mem_cons.mp hm with hm | hm
        · cases hm
        · exact absurd hm ((hnotadv true).1)
      · rcases List.mem_cons.mp hm with hm | hm
        · obtain ⟨-, -, h2, h3⟩ := Event.fetchFail.inj hm.symm
          rw [h2, h3] at hval; exact hval
        · exact absurd hm ((hnotadv b).2)

/-! ### Facts about whole runs -/

lemma runLoop_mono (env : Env) (inp : Nat → StepInput) :
    ∀ fuel i s, s.seen ⊆ (runLoop env inp i fuel s).state.seen ∧
      s.downloaded ≤ (runLoop env inp i fuel s).state.downloaded := by
  intro fuel
  induction fuel with
  | zero => intro i s; exact ⟨Finset.Subset.refl _, le_refl _⟩
  | succ fuel ih =>
    intro i s
    cases hstep : stepIter env s (inp i) with
    | stop s1 r ev =>
      have h1 := stepIter_seen_mono env s (inp i)
      have h2 := stepIter_downloaded_mono env s (inp i)
      rw [hstep] at h1 h2
      simp only [IterOut.state] at h1 h2
      simp only [runLoop, hstep]
      exact ⟨h1, h2⟩
    | cont s1 ev =>
      have h1 := stepIter_seen_mono env s (inp i)
      have h2 := stepIter_downloaded_mono env s (inp i)
      rw [hstep] at h1 h2
      simp only [IterOut.state] at h1 h2
      have ihs := ih (i + 1) s1
      simp only [runLoop, hstep]
      exact ⟨h1.trans ihs.1, le_trans h2 ihs.2⟩

lemma runLoop_saveSeqs (env : Env) (inp : Nat → StepInput) :
    ∀ fuel i s, saveSeqs (runLoop env inp i fuel s).events
      = List.range' (env.highest + s.downloaded + 1)
          ((runLoop env inp i fuel s).state.downloaded - s.downloaded) := by
  intro fuel
  induction fuel with
  | zero => intro i s; simp [runLoop, saveSeqs]
  | succ fuel ih =>
    intro i s
    cases hstep : stepIter env s (inp i) with
    | stop s1 r ev =>
      have h := stepIter_saveSeqs env s (inp i)
      rw [hstep] at h
      simp only [IterOut.events, IterOut.state] at h
      simp only [runLoop, hstep]
      exact h
    | cont s1 ev =>
      have h := stepIter_saveSeqs env s (inp i)
      have hd1 := stepIter_downloaded_mono env s (inp i)
      rw [hstep] at h hd1
      simp only [IterOut.events, IterOut.state] at h hd1
      have ihs := ih (i + 1) s1
      have hd2 := (runLoop_mono env inp fuel (i + 1) s1).2
      simp only [runLoop, hstep]
      rw [saveSeqs_append, h, ihs]
      have e1 : env.highest + s1.downloaded + 1
          = (env.highest + s.downloaded + 1) + (s1.downloaded - s.downloaded) := by omega
      rw [e1, List.range'_append_1]
      congr 1
      omega

lemma runLoop_fetch (env : Env) (inp : Nat → StepInput) (id : List Char) :
    ∀ fuel i s,
      (id ∈ s.seen → (runLoop env inp i fuel s).events.countP (isFetchOf id) = 0)
      ∧ (runLoop env inp i fuel s).events.countP (isFetchOf id) ≤ 1
      ∧ (1 ≤ (runLoop env inp i fuel s).events.countP (isFetchOf id) →
          id ∉ env.existing ∧ id ∉ s.seen ∧
            id ∈ (runLoop env inp i fuel s).state.seen) := by
  intro fuel
  induction fuel with
  | zero =>
    intro i s
    refine ⟨fun _ => rfl, by simp [runLoop], fun h => absurd h (by simp [runLoop])⟩
  | succ fuel ih =>
    intro i s
    obtain ⟨hsle, hszero, hsmem⟩ := stepIter_fetch_count env s (inp i) id
    have hsseen := stepIter_seen_mono env s (inp i)
    cases hstep : stepIter env s (inp i) with
    | stop s1 r ev =>
      rw [hstep] at hsle hszero hsmem hsseen
      simp only [IterOut.events, IterOut.state] at hsle hszero hsmem hsseen
      simp only [runLoop, hstep]
      exact ⟨hszero, hsle, hsmem⟩
    | cont s1 ev =>
      rw [hstep] at hsle hszero hsmem hsseen
      simp only [IterOut.events, IterOut.state] at hsle hszero hsmem hsseen
      obtain ⟨ih1, ih2, ih3⟩ := ih (i + 1) s1
      have hmono := (runLoop_mono env inp fuel (i + 1) s1).1
      simp only [runLoop, hstep, List.countP_append]
      refine ⟨?_, ?_, ?_⟩
      · intro hin
        rw [hszero hin, ih1 (hsseen hin)]
      · by_cases h1 : 1 ≤ ev.countP (isFetchOf id)
        · have := (hsmem h1).2.2
          rw [ih1 this]
          omega
        · have : ev.countP (isFetchOf id) = 0 := by omega
          rw [this]
          simpa using ih2
      · intro hsum
        by_cases h1 : 1 ≤ ev.countP (isFetchOf id)
        · obtain ⟨ha, hb, hc⟩ := hsmem h1
          exact ⟨ha, hb, hmono hc⟩
        · have h0 : ev.countP (isFetchOf id) = 0 := by omega
          have : 1 ≤ (runLoop env inp (i + 1) fuel s1).events.countP (isFetchOf id) := by
            omega
          obtain ⟨ha, hb, hc⟩ := ih3 this
          exact ⟨ha, fun hin => hb (hsseen hin), hc⟩

lemma runLoop_wf (env : Env) (inp : Nat → StepInput) (hwf : ∀ j, WFInput (inp j)) :
    ∀ fuel i s q idv extv,
      ((Event.save q idv extv) ∈ (runLoop env inp i fuel s).events ∨
        ∃ b, (Event.fetchFail b q idv extv) ∈ (runLoop env inp i fuel s).events) →
      validId idv ∧ validExt extv := by
  intro fuel
  induction fuel with
  | zero =>
    intro i s q idv extv h
    rcases h with h | ⟨b, h⟩ <;> simp [runLoop] at h
  | succ fuel ih =>
    intro i s q idv extv h
    cases hstep : stepIter env s (inp i) with
    | stop s1 r ev =>
      have hs := stepIter_wf_events env s (inp i) (hwf i) q idv extv
      rw [hstep] at hs
      simp only [IterOut.events] at hs
      simp only [runLoop, hstep] at h
      exact hs h
    | cont s1 ev =>
      have hs := stepIter_wf_events env s (inp i) (hwf i) q idv extv
      rw [hstep] at hs
      simp only [IterOut.events] at hs
      simp only [runLoop, hstep, List.mem_append] at h
      rcases h with (h | h) | ⟨b, h | h⟩
      · exact hs (Or.inl h)
      · exact ih (i + 1) s1 q idv extv (Or.inl h)
      · exact hs (Or.inr ⟨b, h⟩)
      · exact ih (i + 1) s1 q idv extv (Or.inr ⟨b, h⟩)

/-! ### Facts about the startup scan -/

lemma scan_foldl_acc (files : List (List Char)) :
    ∀ acc : List (List Char × List Char) × Nat,
      (∀ p ∈ acc.1, p ∈ (files.foldl scanStep acc).1) ∧
        acc.2 ≤ (files.foldl scanStep acc).2 := by
  induction files with
  | nil => intro acc; exact ⟨fun p hp => hp, le_refl _⟩
  | cons f fs ih =>
    intro acc
    simp only [List.foldl_cons]
    have h := ih (scanStep acc f)
    have hstep : (∀ p ∈ acc.1, p ∈ (scanStep acc f).1) ∧ acc.2 ≤ (scanStep acc f).2 := by
      unfold scanStep
      cases matchIdPattern f with
      | none => exact ⟨fun p hp => hp, le_refl _⟩
      | some t =>
        exact ⟨fun p hp => List.mem_cons_of_mem _ hp, le_max_left _ _⟩
    exact ⟨fun p hp => h.1 p (hstep.1 p hp), le_trans hstep.2 h.2⟩

lemma scan_foldl_mem (files : List (List Char)) :
    ∀ (acc : List (List Char × List Char) × Nat) (name : List Char), name ∈ files →
      ∀ q i e, matchIdPattern name = some (q, i, e) →
        (i, name) ∈ (files.foldl scanStep acc).1 ∧ q ≤ (files.foldl scanStep acc).2 := by
  induction files with
  | nil => intro acc name h; cases h
  | cons f fs ih =>
    intro acc name hname q i e hp
    simp only [List.foldl_cons]
    rcases List.mem_cons.mp hname with rfl | hmem
    · have hacc := scan_foldl_acc fs (scanStep acc name)
      have h1 : (i, name) ∈ (scanStep acc name).1 := by
        unfold scanStep; rw [hp]; exact List.mem_cons_self _ _
      have h2 : q ≤ (scanStep acc name).2 := by
        unfold scanStep; rw [hp]; exact le_max_right _ _
      exact ⟨hacc.1 _ h1, le_trans h2 hacc.2⟩
    · exact ih (scanStep acc f) name hmem q i e hp

lemma mem_scanIds_of_file (files : List (List Char)) (name : List Char)
    (q : Nat) (i e : List Char) (hname : name ∈ files)
    (hp : matchIdPattern name = some (q, i, e)) :
    i ∈ scanIds files ∧ q ≤ (discover_existing_images files).2 := by
  have h := scan_foldl_mem files ([], 0) name hname q i e hp
  exact ⟨List.mem_map.mpr ⟨(i, name), h.1, rfl⟩, h.2⟩

lemma scanIds_append (files more : List (List Char)) (i : List Char)
    (h : i ∈ scanIds files) : i ∈ scanIds (files ++ more) := by
  unfold scanIds discover_existing_images at h ⊢
  rw [List.foldl_append]
  rcases List.mem_map.mp h with ⟨p, hp, rfl⟩
  exact List.mem_map.mpr ⟨p, (scan_foldl_acc more _).1 p hp, rfl⟩

lemma highest_append (files more : List (List Char)) :
    (discover_existing_images files).2 ≤ (discover_existing_images (files ++ more)).2 := by
  unfold discover_existing_images
  rw [List.foldl_append]
  exact (scan_foldl_acc more _).2

/-! ### Per-invocation facts -/

lemma runOnce_eq (disk : List (List Char)) (rs : RunSpec) :
    runOnce disk rs
      = (disk ++ (mainRun (envOf disk rs.total) rs.inp).events.filterMap eventFile,
         mainRun (envOf disk rs.total) rs.inp) := rfl

lemma mainRun_events_eq (env : Env) (inp : Nat → StepInput) :
    (mainRun env inp).events
      = Event.warmKey :: Event.warmKey :: Event.warmKey ::
          (runLoop env inp 0 50 initState).events := rfl

lemma mainRun_state_eq (env : Env) (inp : Nat → StepInput) :
    (mainRun env inp).state = (runLoop env inp 0 50 initState).state := rfl

lemma mainRun_fetch (env : Env) (inp : Nat → StepInput) (id : List Char) :
    (mainRun env inp).events.countP (isFetchOf id) ≤ 1
    ∧ (id ∈ env.existing → (mainRun env inp).events.countP (isFetchOf id) = 0)
    ∧ (1 ≤ (mainRun env inp).events.countP (isFetchOf id) → id ∉ env.existing) := by
  obtain ⟨-, h2, h3⟩ := runLoop_fetch env inp id 50 0 initState
  rw [mainRun_events_eq]
  simp only [List.countP_cons, isFetchOf, Bool.false_eq_true, if_false, Nat.add_zero]
  refine ⟨h2, fun hex => ?_, fun hge => (h3 hge).1⟩
  by_contra hne
  have : 1 ≤ (runLoop env inp 0 50 initState).events.countP (isFetchOf id) := by omega
  exact (h3 this).1 hex

lemma mainRun_saveSeqs (env : Env) (inp : Nat → StepInput) :
    saveSeqs (mainRun env inp).events
      = List.range' (env.highest + 1) (mainRun env inp).state.downloaded := by
  rw [mainRun_events_eq, mainRun_state_eq]
  have h := runLoop_saveSeqs env inp 50 0 initState
  simp only [saveSeqs, List.filterMap_cons]
  simp only [saveSeqs] at h
  rw [h]
  rfl

lemma mainRun_wf (env : Env) (inp : Nat → StepInput) (hwf : ∀ j, WFInput (inp j))
    (q : Nat) (idv extv : List Char)
    (h : (Event.save q idv extv) ∈ (mainRun env inp).events ∨
      ∃ b, (Event.fetchFail b q idv extv) ∈ (mainRun env inp).events) :
    validId idv ∧ validExt extv := by
  apply runLoop_wf env inp hwf 50 0 initState q idv extv
  rw [mainRun_events_eq] at h
  rcases h with h | ⟨b, h⟩
  · simp only [List.mem_cons] at h
    rcases h with h | h | h | h <;> first | cases h | exact Or.inl h
  · simp only [List.mem_cons] at h
    rcases h with h | h | h | h <;> first | cases h | exact Or.inr ⟨b, h⟩

lemma isSaveOf_shape (id : List Char) (e : Event) (h : isSaveOf id e = true) :
    ∃ q ext, e = Event.save q id ext := by
  cases e <;> simp [isSaveOf] at h
  case save q i x => exact ⟨q, x, by rw [h]⟩

lemma isFetchOf_of_isSaveOf (id : List Char) (e : Event) (h : isSaveOf id e = true) :
    isFetchOf id e = true := by
  cases e <;> simp_all [isSaveOf, isFetchOf]

lemma countP_save_le_fetch (id : List Char) (ev : List Event) :
    ev.countP (isSaveOf id) ≤ ev.countP (isFetchOf id) :=
  List.countP_mono_left fun e _ => isFetchOf_of_isSaveOf id e

/-- A completed save of a well-formed id leaves a file on the post-run disk
that the next scan parses back to that id. -/
lemma save_registers_id (disk : List (List Char)) (rs : RunSpec) (hwf : WFSpec rs)
    (id : List Char)
    (hsave : 1 ≤ (runOnce disk rs).2.events.countP (isSaveOf id)) :
    id ∈ scanIds (runOnce disk rs).1 := by
  rw [runOnce_eq] at hsave ⊢
  have hpos : 0 < (mainRun (envOf disk rs.total) rs.inp).events.countP (isSaveOf id) := hsave
  obtain ⟨e, he, hp⟩ := List.countP_pos_iff.mp hpos
  obtain ⟨q, ext, rfl⟩ := isSaveOf_shape id e hp
  have hval := mainRun_wf (envOf disk rs.total) rs.inp hwf q id ext (Or.inl he)
  have hfile : sardineFilename q id ext
      ∈ (mainRun (envOf disk rs.total) rs.inp).events.filterMap eventFile :=
    List.mem_filterMap.mpr ⟨Event.save q id ext, he, rfl⟩
  have hparse := matchIdPattern_sardineFilename q id ext hval.1 hval.2
  exact (mem_scanIds_of_file _ _ q id ext
    (List.mem_append.mpr (Or.inr hfile)) hparse).1

/-- Every completed save's sequence number is bounded by the next scan's
recovered high-water-mark. -/
lemma save_le_next_highest (disk : List (List Char)) (rs : RunSpec) (hwf : WFSpec rs)
    (q : Nat) (hq : q ∈ saveSeqs (runOnce disk rs).2.events) :
    q ≤ (discover_existing_images (runOnce disk rs).1).2 := by
  rw [runOnce_eq] at hq ⊢
  obtain ⟨e, he, hp⟩ := List.mem_filterMap.mp hq
  have hshape : ∃ idv extv, e = Event.save q idv extv := by
    cases e <;> simp at hp
    case save q' i x => exact ⟨i, x, by rw [hp]⟩
  obtain ⟨idv, extv, rfl⟩ := hshape
  have hval := mainRun_wf (envOf disk rs.total) rs.inp hwf q idv extv (Or.inl he)
  have hfile : sardineFilename q idv extv
      ∈ (mainRun (envOf disk rs.total) rs.inp).events.filterMap eventFile :=
    List.mem_filterMap.mpr ⟨Event.save q idv extv, he, rfl⟩
  have hparse := matchIdPattern_sardineFilename q idv extv hval.1 hval.2
  exact (mem_scanIds_of_file _ _ q idv extv
    (List.mem_append.mpr (Or.inr hfile)) hparse).2

/-! ### Cross-run facts -/

lemma multiRun_cons (disk : List (List Char)) (rs : RunSpec) (rest : List RunSpec) :
    multiRun disk (rs :: rest)
      = ((multiRun (runOnce disk rs).1 rest).1,
         (runOnce disk rs).2.events :: (multiRun (runOnce disk rs).1 rest).2) := rfl

/-- Core of the at-most-once-per-identity guarantee: across any sequence of
runs on a directory, an id is save-completed at most once, and never if the
directory already holds a parseable file for it. -/
lemma multiRun_save_core (id : List Char) :
    ∀ (runs : List RunSpec) (disk : List (List Char)), (∀ rs ∈ runs, WFSpec rs) →
      (allEvents (multiRun disk runs).2).countP (isSaveOf id) ≤ 1
      ∧ (id ∈ scanIds disk → (allEvents (multiRun disk runs).2).countP (isSaveOf id) = 0) := by
  intro runs
  induction runs with
  | nil =>
    intro disk h
    exact ⟨by simp [multiRun, allEvents], fun _ => by simp [multiRun, allEvents]⟩
  | cons rs rest ih =>
    intro disk hwf
    have hwf1 : WFSpec rs := hwf rs (by simp)
    obtain ⟨ihle, ihzero⟩ := ih (runOnce disk rs).1 fun r hr => hwf r (by simp [hr])
    have hfet := mainRun_fetch (envOf disk rs.total) rs.inp id
    have hc1fe : (runOnce disk rs).2.events.countP (isFetchOf id) ≤ 1 := by
      rw [runOnce_eq]; exact hfet.1
    have hc1s_le : (runOnce disk rs).2.events.countP (isSaveOf id)
        ≤ (runOnce disk rs).2.events.countP (isFetchOf id) := countP_save_le_fetch id _
    have hdisk1 : ∀ j, j ∈ scanIds disk → j ∈ scanIds (runOnce disk rs).1 := by
      intro j hj
      rw [runOnce_eq]
      exact scanIds_append disk _ j hj
    rw [multiRun_cons]
    simp only [allEvents, List.countP_append]
    constructor
    · by_cases h1 : 1 ≤ (runOnce disk rs).2.events.countP (isSaveOf id)
      · have hreg := save_registers_id disk rs hwf1 id h1
        rw [ihzero hreg]
        omega
      · have h0 : (runOnce disk rs).2.events.countP (isSaveOf id) = 0 := by omega
        rw [h0]
        simpa using ihle
    · intro hin
      have hz1 : (runOnce disk rs).2.events.countP (isFetchOf id) = 0 := by
        rw [runOnce_eq]
        exact hfet.2.1 hin
      have hz1s : (runOnce disk rs).2.events.countP (isSaveOf id) = 0 := by omega
      rw [hz1s, ihzero (hdisk1 id hin)]

/-- Core of the monotone-sequence-number guarantee: across any sequence of
runs, the completed saves' sequence numbers are strictly increasing, and
all exceed the high-water-mark the first run recovered. -/
lemma multiRun_seqs_core :
    ∀ (runs : List RunSpec) (disk : List (List Char)), (∀ rs ∈ runs, WFSpec rs) →
      List.Pairwise (· < ·) (saveSeqs (allEvents (multiRun disk runs).2))
      ∧ ∀ q ∈ saveSeqs (allEvents (multiRun disk runs).2),
          (discover_existing_images disk).2 < q := by
  intro runs
  induction runs with
  | nil =>
    intro disk h
    constructor
    · simp [multiRun, allEvents, saveSeqs]
    · intro q hq; simp [multiRun, allEvents, saveSeqs] at hq
  | cons rs rest ih =>
    intro disk hwf
    have hwf1 : WFSpec rs := hwf rs (by simp)
    obtain ⟨ihp, ihb⟩ := ih (runOnce disk rs).1 fun r hr => hwf r (by simp [hr])
    have h1 : saveSeqs (runOnce disk rs).2.events
        = List.range' ((discover_existing_images disk).2 + 1)
            (runOnce disk rs).2.state.downloaded := by
      rw [runOnce_eq]
      exact mainRun_saveSeqs (envOf disk rs.total) rs.inp
    have hbound1 : ∀ q ∈ saveSeqs (runOnce disk rs).2.events,
        (discover_existing_images disk).2 < q := by
      intro q hq
      rw [h1] at hq
      have := (List.mem_range'_1.mp hq).1
      omega
    have hnext : ∀ q ∈ saveSeqs (runOnce disk rs).2.events,
        q ≤ (discover_existing_images (runOnce disk rs).1).2 :=
      fun q hq => save_le_next_highest disk rs hwf1 q hq
    rw [multiRun_cons]
    simp only [allEvents, saveSeqs_append]
    constructor
    · rw [List.pairwise_append]
      refine ⟨by rw [h1]; exact List.pairwise_lt_range' _ _, ihp, ?_⟩
      intro a ha b hb
      exact lt_of_le_of_lt (hnext a ha) (ihb b hb)
    · intro q hq
      rcases List.mem_append.mp hq with h | h
      · exact hbound1 q h
      · have hmono : (discover_existing_images disk).2
            ≤ (discover_existing_images (runOnce disk rs).1).2 := by
          rw [runOnce_eq]
          exact highest_append disk _
        exact lt_of_le_of_lt hmono (ihb q h)

/-! ### Targeted step lemmas for the behavioural claims -/

lemma stepIter_fetch_found (env : Env) (s : RunState) (x : StepInput) (id : List Char)
    (h : 1 ≤ (stepIter env s x).events.countP (isFetchOf id)) :
    ∃ ext, x.loc = LocateOutcome.found id ext := by
  obtain ⟨-, ev2, hev, hadv⟩ := stepIter_decomp env s x
  rw [hev, List.countP_append, countP_fetch_of_adv id ev2 hadv, Nat.add_zero] at h
  rcases classifyPhase_shape env s x with ⟨-, -, he⟩ | ⟨id0, ext, hloc, -, -, hcase⟩
  · rw [he] at h; simp at h
  · rcases hcase with ⟨-, -, he⟩ | ⟨-, -, he⟩ | ⟨-, -, b, he⟩ <;> rw [he] at h
    · simp at h
    · by_cases heq : id0 = id
      · exact ⟨ext, heq ▸ hloc⟩
      · simp [List.countP_cons, isFetchOf, heq] at h
    · by_cases heq : id0 = id
      · exact ⟨ext, heq ▸ hloc⟩
      · simp [List.countP_cons, isFetchOf, heq] at h

lemma stepIter_seen_shape (env : Env) (s : RunState) (x : StepInput) :
    (stepIter env s x).state.seen = s.seen
    ∨ ∃ id0 ext0, x.loc = LocateOutcome.found id0 ext0 ∧
        (stepIter env s x).state.seen = insert id0 s.seen := by
  obtain ⟨hst, -⟩ := stepIter_decomp env s x
  rw [hst]
  rcases classifyPhase_shape env s x with ⟨h, -, -⟩ | ⟨id0, ext0, hloc, -, h, -⟩
  · exact Or.inl h
  · exact Or.inr ⟨id0, ext0, hloc, h⟩

/-- The iteration's session bookkeeping and fetch behaviour agree with
`classify` whenever an image was located and the expected total has not
been reached. -/
lemma classifyPhase_classify (env : Env) (s : RunState) (id ext : List Char)
    (arrow : ArrowStatus) (dl : DlResult) (k c sc : Bool)
    (hcard : s.seen.card < env.total) :
    (classifyPhase env s ⟨LocateOutcome.found id ext, arrow, dl, k, c, sc⟩).1.seen
        = (classify env.existing s.seen s.cd id).2.1
    ∧ (classifyPhase env s ⟨LocateOutcome.found id ext, arrow, dl, k, c, sc⟩).1.cd
        = (classify env.existing s.seen s.cd id).2.2
    ∧ (classifyPhase env s ⟨LocateOutcome.found id ext, arrow, dl, k, c, sc⟩).2.1.countP
          (isFetchOf id)
        = (if (classify env.existing s.seen s.cd id).1 = Classification.New
            then 1 else 0) := by
  have hc : ¬ env.total ≤ s.seen.card := not_le.mpr hcard
  unfold classifyPhase classify
  simp only [hc, if_false]
  by_cases hseen : id ∈ s.seen
  · simp only [hseen, if_true]
    split_ifs <;> simp_all
  · simp only [hseen, if_false]
    by_cases hex : id ∈ env.existing
    · simp only [hex, if_true]
      split_ifs <;> simp_all
    · simp only [hex, if_false]
      cases dl <;> simp only
      · split_ifs <;> simp_all [List.countP_cons, isFetchOf]
      · split_ifs <;> simp_all [List.countP_cons, isFetchOf]
      · split_ifs <;> simp_all [List.countP_cons, isFetchOf]

/-- A duplicate observation with the arrow enabled and the keyboard
working: increments the streak counter, halts exactly when it reaches the
threshold, and otherwise advances. -/
lemma stepIter_dup (env : Env) (s : RunState) (id ext : List Char) (dl : DlResult)
    (c sc : Bool) (hseen : id ∈ s.seen) (hcard : s.seen.card < env.total) :
    stepIter env s ⟨LocateOutcome.found id ext, ArrowStatus.enabled, dl, true, c, sc⟩
      = if env.streak ≤ s.cd + 1
        then IterOut.stop ⟨s.downloaded, s.seen, s.cd + 1⟩ StopReason.dupStreak []
        else IterOut.cont ⟨s.downloaded, s.seen, s.cd + 1⟩
          [Event.advFocus, Event.advKey] := by
  have hc : ¬ env.total ≤ s.seen.card := not_le.mpr hcard
  unfold stepIter classifyPhase navStep go_next
  simp only [hseen, if_true, hc, if_false]
  split_ifs with h1 h2 h3 <;> simp_all

/-- A fresh observation with the arrow enabled, the keyboard working and
the session-count check still short of the total: the loop continues with
the id inserted and the streak counter reset. -/
lemma stepIter_new_enabled (env : Env) (s : RunState) (id ext : List Char)
    (dl : DlResult) (c sc : Bool) (hfresh : id ∉ s.seen)
    (hcard : s.seen.card + 1 < env.total) :
    ∃ d ev, stepIter env s
        ⟨LocateOutcome.found id ext, ArrowStatus.enabled, dl, true, c, sc⟩
      = IterOut.cont ⟨d, insert id s.seen, 0⟩ ev := by
  have hc : ¬ env.total ≤ s.seen.card := not_le.mpr (by omega)
  have hcins : ¬ env.total ≤ (insert id s.seen).card := by
    rw [Finset.card_insert_of_not_mem hfresh]
    omega
  unfold stepIter classifyPhase navStep go_next
  simp only [hfresh, if_false, hc, if_true]
  by_cases hex : id ∈ env.existing
  · simp only [hex, if_true]
    simp only [hcins, if_false]
    simp_all
  · simp only [hex, if_false]
    cases dl <;> simp only <;> simp only [hcins, if_false] <;> simp_all

/-- When the next control reports disabled and an image was classified,
the iteration halts and dispatches no advance action. -/
lemma stepIter_disabled (env : Env) (s : RunState) (id ext : List Char)
    (dl : DlResult) (k c sc : Bool) (hcard : s.seen.card < env.total) :
    (stepIter env s
        ⟨LocateOutcome.found id ext, ArrowStatus.disabled, dl, k, c, sc⟩).halted = true
    ∧ (stepIter env s
        ⟨LocateOutcome.found id ext, ArrowStatus.disabled, dl, k, c, sc⟩).events.countP
          isAdvanceEv = 0 := by
  have hc : ¬ env.total ≤ s.seen.card := not_le.mpr hcard
  unfold stepIter classifyPhase navStep go_next
  simp only [hc, if_false]
  by_cases hseen : id ∈ s.seen
  · simp only [hseen, if_true]
    split_ifs <;> simp_all [IterOut.halted, IterOut.events]
  · simp only [hseen, if_false]
    by_cases hex : id ∈ env.existing
    · simp only [hex, if_true]
      split_ifs <;> simp_all [IterOut.halted, IterOut.events, isAdvanceEv]
    · simp only [hex, if_false]
      cases dl <;> simp only <;> split_ifs <;>
        simp_all [IterOut.halted, IterOut.events, isAdvanceEv, List.countP_cons]

/-- A halting iteration ends the loop there: its events are the run's
remaining events and exactly one more step executes. -/
lemma runLoop_stop_now (env : Env) (inp : Nat → StepInput) (i fuel : Nat)
    (s s1 : RunState) (r : StopReason) (ev : List Event)
    (h : stepIter env s (inp i) = IterOut.stop s1 r ev) :
    runLoop env inp i (fuel + 1) s = ⟨s1, ev, some r, 1⟩ := by
  simp only [runLoop, h]

/-- Feeding an already-seen id with the arrow enabled and a working
keyboard: the loop keeps stepping until the streak counter reaches the
threshold, after exactly `env.streak - s.cd` further classifications, and
stops with the duplicate-streak signal. -/
lemma runLoop_dup_phase (env : Env) (inp : Nat → StepInput) (id ext : List Char) :
    ∀ n i fuel s, env.streak - s.cd = n → 1 ≤ n → n ≤ fuel →
      id ∈ s.seen → s.seen.card < env.total →
      (∀ j, i ≤ j → j < i + n →
        inp j = ⟨LocateOutcome.found id ext, ArrowStatus.enabled, (inp j).dl, true,
          (inp j).clickOk, (inp j).scriptOk⟩) →
      (runLoop env inp i fuel s).stopped = some StopReason.dupStreak ∧
        (runLoop env inp i fuel s).steps = n := by
  intro n
  induction n with
  | zero => intro i fuel s hn h1; omega
  | succ n ih =>
    intro i fuel s hn h1 hfuel hseen hcard hwin
    obtain ⟨fuel', rfl⟩ : ∃ f, fuel = f + 1 := ⟨fuel - 1, by omega⟩
    have hj := hwin i (le_refl i) (by omega)
    have hstep := stepIter_dup env s id ext (inp i).dl (inp i).clickOk
      (inp i).scriptOk hseen hcard
    rw [← hj] at hstep
    by_cases hthr : env.streak ≤ s.cd + 1
    · have hn0 : n = 0 := by omega
      subst hn0
      rw [if_pos hthr] at hstep
      rw [runLoop_stop_now env inp i fuel' s _ _ _ hstep]
      exact ⟨rfl, rfl⟩
    · have hn1 : 1 ≤ n := by omega
      rw [if_neg hthr] at hstep
      have hwin1 : ∀ j, i + 1 ≤ j → j < (i + 1) + n →
          inp j = ⟨LocateOutcome.found id ext, ArrowStatus.enabled, (inp j).dl, true,
            (inp j).clickOk, (inp j).scriptOk⟩ :=
        fun j ha hb => hwin j (by omega) (by omega)
      have ihr := ih (i + 1) fuel' ⟨s.downloaded, s.seen, s.cd + 1⟩
        (by simp only []; omega) hn1 (by omega) hseen hcard hwin1
      simp only [runLoop, hstep]
      exact ⟨ihr.1, by rw [ihr.2]⟩

/-- If an id is displayed only before the third key press, the page-driven
loop (which starts at position 3) never fetches it and never adds it to
the session set. -/
lemma runPage_avoid (env : Env) (pi : PageInputs) (id : List Char)
    (hdisp : ∀ t, 3 ≤ t → ∀ ext, pi.disp t ≠ LocateOutcome.found id ext) :
    ∀ fuel i t s, 3 ≤ t → id ∉ s.seen →
      (runPage env pi i t fuel s).events.countP (isFetchOf id) = 0
      ∧ id ∉ (runPage env pi i t fuel s).state.seen := by
  intro fuel
  induction fuel with
  | zero => intro i t s h3 hnot; exact ⟨rfl, hnot⟩
  | succ fuel ih =>
    intro i t s h3 hnot
    have hzero : (stepIter env s
        ⟨pi.disp t, pi.arrow i, pi.dl i, pi.keyOk i, pi.clickOk i,
          pi.scriptOk i⟩).events.countP (isFetchOf id) = 0 := by
      by_contra hne
      have h1 : 1 ≤ (stepIter env s
          ⟨pi.disp t, pi.arrow i, pi.dl i, pi.keyOk i, pi.clickOk i,
            pi.scriptOk i⟩).events.countP (isFetchOf id) :=
        Nat.one_le_iff_ne_zero.mpr hne
      obtain ⟨ext, hloc⟩ := stepIter_fetch_found env s _ id h1
      exact hdisp t h3 ext hloc
    have hseen1 : id ∉ (stepIter env s
        ⟨pi.disp t, pi.arrow i, pi.dl i, pi.keyOk i, pi.clickOk i,
          pi.scriptOk i⟩).state.seen := by
      rcases stepIter_seen_shape env s
          ⟨pi.disp t, pi.arrow i, pi.dl i, pi.keyOk i, pi.clickOk i,
            pi.scriptOk i⟩ with h | ⟨id0, ext0, hloc, h⟩
      · rw [h]; exact hnot
      · rw [h, Finset.mem_insert]
        rintro (rfl | hmem)
        · exact hdisp t h3 ext0 hloc
        · exact hnot hmem
    cases hstep : stepIter env s
        ⟨pi.disp t, pi.arrow i, pi.dl i, pi.keyOk i, pi.clickOk i,
          pi.scriptOk i⟩ with
    | stop s1 r ev =>
      rw [hstep] at hzero hseen1
      simp only [IterOut.events, IterOut.state] at hzero hseen1
      simp only [runPage, hstep]
      exact ⟨hzero, hseen1⟩
    | cont s1 ev =>
      rw [hstep] at hzero hseen1
      simp only [IterOut.events, IterOut.state] at hzero hseen1
      have ihr := ih (i + 1) (t + advCount ev) s1 (by omega) hseen1
      simp only [runPage, hstep, List.countP_append]
      exact ⟨by rw [hzero, ihr.1], ihr.2⟩

lemma mainPage_events_eq (env : Env) (pi : PageInputs) :
    (mainPage env pi).events
      = Event.warmKey :: Event.warmKey :: Event.warmKey ::
          (runPage env pi 0 3 50 initState).events := rfl

lemma mainPage_state_eq (env : Env) (pi : PageInputs) :
    (mainPage env pi).state = (runPage env pi 0 3 50 initState).state := rfl

lemma wSpec_wf : ∀ rs ∈ [wSpec], WFSpec rs := by
  intro rs hrs
  rw [List.mem_singleton] at hrs
  subst hrs
  intro i idv extv hloc
  have h : LocateOutcome.found ['a'] ['j', 'p', 'g'] = LocateOutcome.found idv extv :=
    hloc
  cases h
  exact ⟨by decide, by decide⟩

/-! ### The claims -/

/-- C1: for every image identity, across all runs against the same output
directory at most one completed save of that identity ever occurs; within
a run `download_image_from_url` is called at most once per id (an id in
`session_seen_ids` is never fetched again) and never for an id the startup
scan found on disk, which `classify` labels AlreadyOnDisk. -/
theorem at_most_once_save_per_identity (disk : List (List Char))
    (runs : List RunSpec) (id : List Char) (hwf : ∀ rs ∈ runs, WFSpec rs) :
    (allEvents (multiRun disk runs).2).countP (isSaveOf id) ≤ 1
    ∧ (∀ (env : Env) (inp : Nat → StepInput),
        (mainRun env inp).events.countP (isFetchOf id) ≤ 1
        ∧ (id ∈ env.existing → (mainRun env inp).events.countP (isFetchOf id) = 0))
    ∧ (∀ (existing : List (List Char)) (seen : Finset (List Char)) (cd : Nat),
        id ∈ existing → id ∉ seen →
        (classify existing seen cd id).1 = Classification.AlreadyOnDisk) := by
  refine ⟨(multiRun_save_core id runs disk hwf).1, ?_, ?_⟩
  · intro env inp
    exact ⟨(mainRun_fetch env inp id).1, (mainRun_fetch env inp id).2.1⟩
  · intro existing seen cd hex hns
    simp [classify, hns, hex]

/-- C1 witness: one concrete run saves ['a'] at most once. -/
theorem at_most_once_save_per_identity_witness :
    (allEvents (multiRun [] [wSpec]).2).countP (isSaveOf ['a']) ≤ 1 :=
  (at_most_once_save_per_identity [] [wSpec] ['a'] wSpec_wf).1

/-- C2: constructing the output filename from a valid
(sequenceNumber, id, extension) triple and parsing it back with the
startup recovery scan yields the identical triple; a directory holding
just that file scans to exactly that id and that high-water-mark. -/
theorem filename_roundtrip (seq : Nat) (id ext : List Char)
    (hid : validId id) (hext : validExt ext) :
    matchIdPattern (sardineFilename seq id ext) = some (seq, id, ext)
    ∧ scanIds [sardineFilename seq id ext] = [id]
    ∧ (discover_existing_images [sardineFilename seq id ext]).2 = seq := by
  have h := matchIdPattern_sardineFilename seq id ext hid hext
  refine ⟨h, ?_, ?_⟩
  · simp [scanIds, discover_existing_images, scanStep, h]
  · simp [discover_existing_images, scanStep, h]

/-- C2 witness at a concrete triple. -/
theorem filename_roundtrip_witness :
    validId ['a', '1'] ∧ validExt ['j', 'p', 'g']
    ∧ matchIdPattern (sardineFilename 7 ['a', '1'] ['j', 'p', 'g'])
        = some (7, ['a', '1'], ['j', 'p', 'g']) :=
  ⟨by decide, by decide,
   (filename_roundtrip 7 ['a', '1'] ['j', 'p', 'g'] (by decide) (by decide)).1⟩

/-- C3: across any sequence of runs — including runs that recover a prior
high-water-mark from the directory — the sequence numbers of completed
saves are strictly increasing in order of assignment (hence never reused),
even when some downloads fail, and all exceed the initially recovered
high-water-mark. -/
theorem monotonic_sequence_numbers (disk : List (List Char)) (runs : List RunSpec)
    (hwf : ∀ rs ∈ runs, WFSpec rs) :
    List.Pairwise (· < ·) (saveSeqs (allEvents (multiRun disk runs).2))
    ∧ ∀ q ∈ saveSeqs (allEvents (multiRun disk runs).2),
        (discover_existing_images disk).2 < q :=
  multiRun_seqs_core runs disk hwf

/-- C3 witness: one concrete run's save sequence numbers are strictly
increasing. -/
theorem monotonic_sequence_numbers_witness :
    List.Pairwise (· < ·) (saveSeqs (allEvents (multiRun [] [wSpec]).2)) :=
  (monotonic_sequence_numbers [] [wSpec] wSpec_wf).1

/-- C4: a classification step returns DuplicateThisSession and increments
the streak counter when the id was already seen this run; otherwise it
resets the counter to zero, adds the id to the session set and returns
New or AlreadyOnDisk according to the startup scan — and the loop
iteration's session bookkeeping and fetch behaviour agree with
`classify`. -/
theorem classification_step_behaviour (existing : List (List Char))
    (seen : Finset (List Char)) (cd : Nat) (id ext : List Char) (env : Env)
    (s : RunState) (arrow : ArrowStatus) (dl : DlResult) (k c sc : Bool) :
    (id ∈ seen →
      classify existing seen cd id
        = (Classification.DuplicateThisSession, seen, cd + 1))
    ∧ (id ∉ seen →
        classify existing seen cd id
          = ((if id ∈ existing then Classification.AlreadyOnDisk
              else Classification.New), insert id seen, 0))
    ∧ (s.seen.card < env.total →
        (stepIter env s ⟨LocateOutcome.found id ext, arrow, dl, k, c, sc⟩).state.seen
            = (classify env.existing s.seen s.cd id).2.1
        ∧ (stepIter env s ⟨LocateOutcome.found id ext, arrow, dl, k, c, sc⟩).state.cd
            = (classify env.existing s.seen s.cd id).2.2
        ∧ (stepIter env s ⟨LocateOutcome.found id ext, arrow, dl, k, c,
              sc⟩).events.countP (isFetchOf id)
            = (if (classify env.existing s.seen s.cd id).1 = Classification.New
               then 1 else 0)) := by
  refine ⟨fun h => by simp [classify, h], fun h => by simp [classify, h],
    fun hcard => ?_⟩
  obtain ⟨hst, ev2, hev, hadv⟩ :=
    stepIter_decomp env s ⟨LocateOutcome.found id ext, arrow, dl, k, c, sc⟩
  obtain ⟨h1, h2, h3⟩ := classifyPhase_classify env s id ext arrow dl k c sc hcard
  refine ⟨by rw [hst, h1], by rw [hst, h2], ?_⟩
  rw [hev, List.countP_append, countP_fetch_of_adv id ev2 hadv, Nat.add_zero, h3]

/-- C4 witness: a duplicate id is labelled DuplicateThisSession with the
counter incremented. -/
theorem classification_step_behaviour_witness :
    classify [] {(['a'] : List Char)} 0 ['a']
      = (Classification.DuplicateThisSession, {['a']}, 1) :=
  (classification_step_behaviour [] {['a']} 0 ['a'] ['j'] ⟨[], 0, 50, 1⟩ initState
    ArrowStatus.enabled DlResult.ok true true true).1 (by decide)

/-- C5: with the next control enabled, the keyboard working and the
expected total out of reach, a locator that keeps returning one id makes
the loop terminate by the duplicate-streak signal exactly at the
threshold-th consecutive duplicate step: one fresh classification plus
`threshold` duplicate classifications, no more and no fewer. -/
theorem duplicate_streak_termination (env : Env) (inp : Nat → StepInput)
    (id ext : List Char) (s : RunState) (fuel : Nat) (h1 : 1 ≤ env.streak)
    (hfresh : id ∉ s.seen) (hcard : s.seen.card + 1 < env.total)
    (hfuel : env.streak + 1 ≤ fuel)
    (hwin : ∀ j, j ≤ env.streak →
      inp j = ⟨LocateOutcome.found id ext, ArrowStatus.enabled, (inp j).dl, true,
        (inp j).clickOk, (inp j).scriptOk⟩) :
    (runLoop env inp 0 fuel s).stopped = some StopReason.dupStreak
    ∧ (runLoop env inp 0 fuel s).steps = env.streak + 1 := by
  obtain ⟨fuel', rfl⟩ : ∃ f, fuel = f + 1 := ⟨fuel - 1, by omega⟩
  have hj0 := hwin 0 (by omega)
  obtain ⟨d, ev, hstep⟩ := stepIter_new_enabled env s id ext (inp 0).dl (inp 0).clickOk
    (inp 0).scriptOk hfresh hcard
  rw [← hj0] at hstep
  have hcardins : (insert id s.seen).card < env.total := by
    rw [Finset.card_insert_of_not_mem hfresh]
    omega
  have hwin1 : ∀ j, 1 ≤ j → j < 1 + env.streak →
      inp j = ⟨LocateOutcome.found id ext, ArrowStatus.enabled, (inp j).dl, true,
        (inp j).clickOk, (inp j).scriptOk⟩ :=
    fun j ha hb => hwin j (by omega)
  have hrest := runLoop_dup_phase env inp id ext env.streak 1 fuel'
    ⟨d, insert id s.seen, 0⟩ (by simp only []; omega) h1 (by omega)
    (Finset.mem_insert_self id s.seen) hcardins hwin1
  simp only [runLoop, hstep]
  exact ⟨hrest.1, by rw [hrest.2]⟩

/-- C5 witness: with the script's threshold of 1, the concrete run stops
by the duplicate-streak signal after exactly 2 steps. -/
theorem duplicate_streak_termination_witness :
    (runLoop ⟨[], 0, 50, MAX_DUPLICATE_STREAK⟩ (fun _ => wStep) 0 50
        initState).stopped = some StopReason.dupStreak
    ∧ (runLoop ⟨[], 0, 50, MAX_DUPLICATE_STREAK⟩ (fun _ => wStep) 0 50
        initState).steps = MAX_DUPLICATE_STREAK + 1 :=
  duplicate_streak_termination ⟨[], 0, 50, MAX_DUPLICATE_STREAK⟩ (fun _ => wStep)
    ['a'] ['j', 'p', 'g'] initState 50 (by decide) (by decide) (by decide)
    (by decide) (fun j hj => rfl)

/-- C6: when the next control reports disabled at a step whose image was
classified, that iteration halts and dispatches no advance action (no
focus click, key signal, click or forced click), and a halting iteration
ends the run immediately with exactly that step's events. -/
theorem disabled_control_termination (env : Env) (s : RunState) (id ext : List Char)
    (dl : DlResult) (k c sc : Bool) (hcard : s.seen.card < env.total) :
    ((stepIter env s
        ⟨LocateOutcome.found id ext, ArrowStatus.disabled, dl, k, c, sc⟩).halted
          = true
     ∧ (stepIter env s
        ⟨LocateOutcome.found id ext, ArrowStatus.disabled, dl, k, c,
          sc⟩).events.countP isAdvanceEv = 0)
    ∧ ∀ (inp : Nat → StepInput) (i fuel : Nat) (s0 s1 : RunState) (r : StopReason)
        (ev : List Event), stepIter env s0 (inp i) = IterOut.stop s1 r ev →
        runLoop env inp i (fuel + 1) s0 = ⟨s1, ev, some r, 1⟩ :=
  ⟨stepIter_disabled env s id ext dl k c sc hcard,
   fun inp i fuel s0 s1 r ev h => runLoop_stop_now env inp i fuel s0 s1 r ev h⟩

/-- C6 witness at a concrete state and step input. -/
theorem disabled_control_termination_witness :
    (stepIter ⟨[], 0, 50, 1⟩ initState
        ⟨LocateOutcome.found ['a'] ['j'], ArrowStatus.disabled, DlResult.ok, true,
          true, true⟩).halted = true
    ∧ (stepIter ⟨[], 0, 50, 1⟩ initState
        ⟨LocateOutcome.found ['a'] ['j'], ArrowStatus.disabled, DlResult.ok, true,
          true, true⟩).events.countP isAdvanceEv = 0 :=
  (disabled_control_termination ⟨[], 0, 50, 1⟩ initState ['a'] ['j'] DlResult.ok
    true true true (by decide)).1

/-- C7 counterexample: all four selectors yield nothing — the claim's
premise that no structural selector yields a found, non-hidden control —
and every activation method works, yet the advance reports
blocked(missing) and dispatches no key signal instead of falling back to
the keyboard. -/
theorem missing_control_no_keyboard_fallback :
    get_next_arrow_state [none, none, none, none] = (ArrowStatus.missing, none)
    ∧ go_to_next_image [none, none, none, none] true true true
        = (false, NavTag.blockedBy ArrowStatus.missing, [])
    ∧ (go_to_next_image [none, none, none, none] true true true).2.2.countP
        (fun e => e = Event.advKey) = 0 := by
  decide

/-- C7 amended: when no selector yields a found, non-hidden control, the
homepage variant's advance reports blocked(missing) without dispatching
any action and the caller halts; the unconditional keyboard fallback
exists only in the direct variant, which selects keyboard navigation at
startup exactly when no arrow elements were found and then presses the
key every step. -/
theorem missing_control_blocks_homepage_variant (probes : List (Option ArrowProbe))
    (k c sc : Bool) (h : (get_next_arrow_state probes).1 = ArrowStatus.missing) :
    go_to_next_image probes k c sc = (false, NavTag.blockedBy ArrowStatus.missing, [])
    ∧ use_keyboard [] = true
    ∧ (∀ (arrows : List ArrowProbe) (jsOk : Bool),
        direct_navigate true arrows jsOk = [Event.advKey]) := by
  refine ⟨?_, rfl, fun arrows jsOk => rfl⟩
  simp [go_to_next_image, h]

/-- C7 amended witness at one missing selector. -/
theorem missing_control_blocks_homepage_variant_witness :
    (get_next_arrow_state [none]).1 = ArrowStatus.missing
    ∧ go_to_next_image [none] true true true
        = (false, NavTag.blockedBy ArrowStatus.missing, []) :=
  ⟨by decide,
   (missing_control_blocks_homepage_variant [none] true true true (by decide)).1⟩

/-- C8: the failed-download scenario computed on the code: the run
continues past the failure (a second iteration executes) and registers no
completed save, but a mid-stream failure leaves a partial file whose name
the next run's scan parses, so that run classifies the id AlreadyOnDisk
and never retries it — whereas a failure that precedes the file creation
is retried exactly as the claim describes. -/
theorem partial_file_registered_after_failed_download :
    (runOnce [] c8Run1).2.steps = 2
    ∧ (runOnce [] c8Run1).2.events.countP (isFetchOf c8Id) = 1
    ∧ (runOnce [] c8Run1).2.events.countP (isSaveOf c8Id) = 0
    ∧ (runOnce [] c8Run1).1 = [sardineFilename 1 c8Id ['j', 'p', 'g']]
    ∧ c8Id ∈ scanIds (runOnce [] c8Run1).1
    ∧ (classify (scanIds (runOnce [] c8Run1).1) ∅ 0 c8Id).1
        = Classification.AlreadyOnDisk
    ∧ (runOnce (runOnce [] c8Run1).1 c8Run2).2.events.countP (isFetchOf c8Id) = 0
    ∧ (runOnce [] c8Run1b).1 = []
    ∧ (classify (scanIds (runOnce [] c8Run1b).1) ∅ 0 c8Id).1 = Classification.New
    ∧ (runOnce (runOnce [] c8Run1b).1 c8Run2).2.events.countP (isFetchOf c8Id)
        = 1 := by
  decide

/-- C9 counterexample: strategy 1 finds nothing, the centering scan
selects a visible, wide element whose src read returns nothing, and a
perfectly locatable element remains for the largest-visible strategy —
yet the locate phase ends the traversal (line 356) instead of continuing
the candidate search; with the bad candidate absent the same remaining
element is located fine. -/
theorem centered_candidate_missing_src_ends_traversal :
    locate_current [[], []]
        [⟨some true, some (700, 520), some none⟩]
        [⟨some true, some (0, 600), some (some ['g', 'o', 'o', 'd'])⟩]
      = LocCascade.stopLoop
    ∧ locate_current [[], []] []
        [⟨some true, some (0, 600), some (some ['g', 'o', 'o', 'd'])⟩]
      = LocCascade.proceed ['g', 'o', 'o', 'd'] := by
  decide

/-- C9 amended: in the explicit-active-marker strategy an element whose
visibility or address read throws, or whose address is absent, is skipped
and the search continues with the remaining elements and strategies; in
the centering strategy the address is read only after a candidate is
chosen, and a chosen candidate whose address read returns nothing ends
the traversal, while one whose read throws aborts the run. -/
theorem locator_skip_behaviour :
    (∀ (e : ImgElem) (l : List ImgElem) (rest : List (List ImgElem)),
      e.visRead = none ∨ e.srcRead = none ∨ e.srcRead = some none →
      find_active_image ((e :: l) :: rest) = find_active_image (l :: rest))
    ∧ (∀ (s1 : List (List ImgElem)) (s2 s3 : List CandElem) (best : CandElem),
        find_active_image s1 = none →
        (centeredScan s2 (none, none)).1 = some best →
        (best.srcRead = some none → locate_current s1 s2 s3 = LocCascade.stopLoop)
        ∧ (best.srcRead = none → locate_current s1 s2 s3 = LocCascade.fatal)) := by
  constructor
  · intro e l rest h
    have heq : find_img_in (e :: l) = find_img_in l := by
      rcases h with h | h | h
      · simp [find_img_in, h]
      · cases hv : e.visRead with
        | none => simp [find_img_in, hv]
        | some b => cases b <;> simp [find_img_in, hv, h]
      · cases hv : e.visRead with
        | none => simp [find_img_in, hv]
        | some b => cases b <;> simp [find_img_in, hv, h]
    simp [find_active_image, heq]
  · intro s1 s2 s3 best h1 h2
    constructor <;> intro h3 <;> simp [locate_current, h1, h2, h3]

/-- C9 amended witness at concrete elements. -/
theorem locator_skip_behaviour_witness :
    find_active_image [[⟨some true, some none⟩], []] = find_active_image [[], []]
    ∧ locate_current [[]] [⟨some true, some (700, 520), some none⟩] []
        = LocCascade.stopLoop :=
  ⟨(locator_skip_behaviour).1 ⟨some true, some none⟩ [] [[]]
      (Or.inr (Or.inr rfl)),
   ((locator_skip_behaviour).2 [[]] [⟨some true, some (700, 520), some none⟩] []
      ⟨some true, some (700, 520), some none⟩ (by decide) (by decide)).1 rfl⟩

/-- C10: the run model starts with the three unconditional warm-up
ArrowRight presses before any locate step, and an id displayed only
during the warm-up positions (before the third press) is never located,
never fetched and never enters the session set. -/
theorem warmup_presses_precede_first_locate (env : Env) (pi : PageInputs)
    (id : List Char)
    (hdisp : ∀ t, 3 ≤ t → ∀ ext, pi.disp t ≠ LocateOutcome.found id ext) :
    (mainPage env pi).events.take 3 = [Event.warmKey, Event.warmKey, Event.warmKey]
    ∧ (mainPage env pi).events.countP (isFetchOf id) = 0
    ∧ id ∉ (mainPage env pi).state.seen := by
  have h := runPage_avoid env pi id hdisp 50 0 3 initState (le_refl 3)
    (by simp [initState])
  refine ⟨by rw [mainPage_events_eq]; simp, ?_, by rw [mainPage_state_eq]; exact h.2⟩
  rw [mainPage_events_eq]
  have hw : isFetchOf id Event.warmKey = false := rfl
  simp [List.countP_cons, hw, h.1]

/-- C10 witness at a concrete page whose id appears only during
warm-up. -/
theorem warmup_presses_precede_first_locate_witness :
    (mainPage ⟨[], 0, 50, 1⟩ wPage).events.take 3
        = [Event.warmKey, Event.warmKey, Event.warmKey]
    ∧ (mainPage ⟨[], 0, 50, 1⟩ wPage).events.countP (isFetchOf ['a']) = 0
    ∧ ['a'] ∉ (mainPage ⟨[], 0, 50, 1⟩ wPage).state.seen := by
  refine warmup_presses_precede_first_locate ⟨[], 0, 50, 1⟩ wPage ['a'] ?_
  intro t ht ext h
  have hlt : ¬ t < 3 := by omega
  simp only [wPage, hlt, if_false] at h
  cases h

end WixGallery
